import Mathlib

/-!
Verification development for the dd-trace-py remote-configuration client and
the tornado executor wrapper.

The remote-configuration client (ddtrace/internal/remoteconfig) is specified
in spec.md; its implementation module is not among the sources here (only its
test suite, src/tests/internal/test_remoteconfig.py, is), so the client is
modelled from the spec, component by component, and checked against the
observable behavior the tests pin down.  The tornado executor wrapper
(src/ddtrace/contrib/tornado/decorators.py) is embedded directly from its
source.
-/

namespace DDTrace
namespace RemoteConfig

/-- Modelled from the spec: a decoded `target_files` entry of the agent's poll
response envelope: a path and the base64-decoded raw bytes (bytes are numbers
here). -/
structure TargetFile where
  path : String
  raw : List Nat
deriving Repr, DecidableEq

/-- Modelled from the spec: the per-path record inside the targets metadata's
target map: declared digest (a hex digest in the implementation, abstracted to
a numeric digest) and declared length. -/
structure TargetSpec where
  hash : Nat
  length : Nat
deriving Repr, DecidableEq

/-- Modelled from the spec: the TUF "targets" role metadata: monotonic version,
expiration timestamp, opaque backend state token, and the ordered path-to-spec
map (order matters for the defensive last-write-wins tie-break). -/
structure TargetsMeta where
  version : Nat
  expires : Nat
  opaqueBackendState : String
  targets : List (String × TargetSpec)
deriving Repr, DecidableEq

/-- Modelled from the spec: TUF "root" role metadata.  Only the version takes
part in the mandatory checks: per the spec, signature verification may be a
no-op in relaxed-trust deployments but version/structure checks are
mandatory. -/
structure RootMeta where
  version : Nat
deriving Repr, DecidableEq

/-- Modelled from the spec: the agent's poll-response envelope after the base64
and JSON layers have been peeled: ordered candidate roots (oldest-to-newest),
optional candidate targets metadata (absence means "no change"), raw target
files, and the authoritative `client_configs` list of still-active paths. -/
structure WireResponse where
  roots : List RootMeta
  targets : Option TargetsMeta
  target_files : List TargetFile
  client_configs : List String
deriving Repr, DecidableEq

/-- Modelled from the spec: the content digest of a file's raw bytes.  The
implementation uses sha256; the embedding uses an executable stand-in digest (a
fold over the bytes), which preserves exactly what the claims consume:
equality or inequality between a computed digest and a declared digest. -/
def contentHash (raw : List Nat) : Nat :=
  raw.foldl (fun a b => a * 257 + b + 1) 7

/-- Error taxonomy of the client, from the spec: decode errors (malformed
envelope or hash/length mismatch) and trust errors (root version chain,
targets version regression, targets expiration). -/
inductive RCError where
  | decodeError
  | trustErrorRoot
  | trustErrorTargetsVersion
  | trustErrorTargetsExpired
deriving Repr, DecidableEq

/-- Modelled from the spec: the decoded bundle handed to the trust store and
the resolver: candidate roots, candidate targets metadata, the path-to-bytes
map for delivered files, and the still-active path list. -/
structure Bundle where
  roots : List RootMeta
  targets : Option TargetsMeta
  files : List (String × List Nat)
  client_configs : List String
deriving Repr, DecidableEq

/-- Modelled from the spec: a delivered target file fails integrity when its
computed digest or its actual byte length differs from the digest/length the
targets metadata declares for its path.  Files whose path the metadata does
not list take no part in the check. -/
def fileMismatch (tm : TargetsMeta) (f : TargetFile) : Bool :=
  match tm.targets.lookup f.path with
  | some spec => contentHash f.raw != spec.hash || f.raw.length != spec.length
  | none => false

/-- Modelled from the spec: `decode` peels the wire envelope into a `Bundle`
and fails with a decode error when any target file's actual hash or length
mismatches its declared hash/length; decoding is strictly local, no trust
calls happen here. -/
def decode (w : WireResponse) : Except RCError Bundle :=
  match w.targets with
  | some tm =>
      if w.target_files.any (fileMismatch tm) then .error .decodeError
      else .ok { roots := w.roots, targets := some tm,
                 files := w.target_files.map (fun f => (f.path, f.raw)),
                 client_configs := w.client_configs }
  | none =>
      .ok { roots := w.roots, targets := none,
            files := w.target_files.map (fun f => (f.path, f.raw)),
            client_configs := w.client_configs }

/-- Modelled from the spec: `verify_root` accepts a candidate root against the
currently trusted root version only when the candidate's version is exactly
the current version plus one; otherwise it fails with a trust error. -/
def verify_root (cand : RootMeta) (currentVersion : Nat) : Except RCError Nat :=
  if cand.version = currentVersion + 1 then .ok cand.version
  else .error .trustErrorRoot

/-- Modelled from the spec: root rotation over the response's ordered root
list, applied one version at a time: delivered roots at or below the currently
trusted version are already-known history and are skipped; every newer root
must pass `verify_root` against the running current version before the next
link is considered. -/
def applyRootRotation (roots : List RootMeta) (currentVersion : Nat) :
    Except RCError Nat :=
  match roots with
  | [] => .ok currentVersion
  | r :: rest =>
      if r.version ≤ currentVersion then applyRootRotation rest currentVersion
      else
        match verify_root r currentVersion with
        | .ok v => applyRootRotation rest v
        | .error e => .error e

/-- Modelled from the spec: `verify_targets` fails with a trust error when the
candidate targets version regresses below the currently trusted version
(replay protection) or when the expiration is not in the future at
verification time; signature checking is the relaxed-trust no-op. -/
def verify_targets (tm : TargetsMeta) (trustedVersion : Nat) (now : Nat) :
    Except RCError TargetsMeta :=
  if tm.version < trustedVersion then .error .trustErrorTargetsVersion
  else if tm.expires ≤ now then .error .trustErrorTargetsExpired
  else .ok tm

/-- Apply state of a resolved config entry, from the spec's enum. -/
inductive ApplyState where
  | UNACKNOWLEDGED
  | ACKNOWLEDGED
  | ERROR
deriving Repr, DecidableEq

/-- Modelled from the spec: a resolved config entry, identified by
(product, config id), carrying the decoded content, its content digest and the
apply state. -/
structure ConfigEntry where
  product : String
  configId : String
  path : String
  content : List Nat
  hash : Nat
  applyState : ApplyState
deriving Repr, DecidableEq

/-- Split a character list at every occurrence of the separator (the
semantics of splitting a string on a one-character separator). -/
def splitChars (sep : Char) : List Char → List (List Char)
  | [] => [[]]
  | c :: cs =>
      match splitChars sep cs with
      | [] => if c = sep then [[], []] else [[c]]
      | x :: xs => if c = sep then [] :: x :: xs else (c :: x) :: xs

/-- Modelled from the spec: a target path has the shape
`datadog/2/<product>/<config_id>/config`; extract the product name and the
config id from its five slash-separated components. -/
def parsePath (p : String) : Option (String × String) :=
  match (splitChars '/' p.data).map String.mk with
  | [_, _, product, configId, _] => some (product, configId)
  | _ => none

/-- A callback handle; its behavior (whether an invocation raises) is supplied
separately to the processing step, so handles stay comparable values. -/
abbrev Callback := Nat

/-- Modelled from the spec: the product registry, an ordered map from product
name to the ordered list of registered callback handles. -/
structure Registry where
  products : List (String × List Callback)
deriving Repr, DecidableEq

/-- The callbacks currently registered for a product. -/
def Registry.callbacks (reg : Registry) (p : String) : List Callback :=
  (reg.products.lookup p).getD []

/-- Helper for `Registry.register`: add the callback at the end of the
product's list unless the same callback is already registered there. -/
def registerIn (ps : List (String × List Callback)) (p : String)
    (cb : Callback) : List (String × List Callback) :=
  match ps with
  | [] => [(p, [cb])]
  | (q, cbs) :: rest =>
      if q = p then
        if cb ∈ cbs then (q, cbs) :: rest
        else (q, cbs ++ [cb]) :: rest
      else (q, cbs) :: registerIn rest p cb

/-- Modelled from the spec: `register(product, callback)` appends the callback
to the product's ordered callback list; registering an already-present
(product, callback) pair is a no-op. -/
def Registry.register (reg : Registry) (p : String) (cb : Callback) :
    Registry :=
  ⟨registerIn reg.products p cb⟩

/-- Modelled from the spec: the set of product names with at least one
registered callback, reported as the poll request's subscription list. -/
def subscribedProducts (reg : Registry) : List String :=
  (reg.products.filter (fun pr => !pr.2.isEmpty)).map (fun pr => pr.1)

/-- Modelled from the spec: the worker-owned client state: last root version,
last-applied targets version, last opaque backend-state token, and the
product-to-applied-entries map. -/
structure ClientState where
  rootVersion : Nat
  targetsVersion : Nat
  backendState : String
  applied : List (String × List ConfigEntry)
deriving Repr, DecidableEq

/-- Modelled from the spec: the fresh client state a worker starts from: root
metadata versions start at 1, nothing applied yet. -/
def initialClientState : ClientState :=
  { rootVersion := 1, targetsVersion := 0, backendState := "", applied := [] }

/-- The entries currently applied for a product. -/
def ClientState.appliedFor (st : ClientState) (p : String) : List ConfigEntry :=
  (st.applied.lookup p).getD []

/-- Last-write-wins insert for resolved entries: a later target-map entry with
the same config id replaces the earlier one (the spec's defensive tie-break
for duplicate (product, config id) pairs). -/
def insertEntry (acc : List ConfigEntry) (e : ConfigEntry) : List ConfigEntry :=
  acc.filter (fun x => x.configId != e.configId) ++ [e]

/-- Modelled from the spec: the entries a verified response yields for product
`p`: walk the targets map in order, keep the paths listed in `client_configs`
(the authoritative still-active set) whose custom metadata names `p` and whose
bytes were delivered in the bundle; a later path with the same config id wins.
Entries carry the digest of their delivered bytes and start UNACKNOWLEDGED. -/
def newEntries (b : Bundle) (tm : TargetsMeta) (p : String) : List ConfigEntry :=
  tm.targets.foldl
    (fun acc pr =>
      match parsePath pr.1 with
      | some (prod, cid) =>
          if prod = p ∧ pr.1 ∈ b.client_configs then
            match b.files.lookup pr.1 with
            | some raw =>
                insertEntry acc
                  { product := p, configId := cid, path := pr.1,
                    content := raw, hash := contentHash raw,
                    applyState := .UNACKNOWLEDGED }
            | none => acc
          else acc
      | none => acc)
    []

/-- The per-product diff, from the spec's ADDED / UPDATED / REMOVED
classification (UNCHANGED entries are excluded from the diff). -/
structure ProductDiff where
  added : List ConfigEntry
  updated : List ConfigEntry
  removed : List ConfigEntry
deriving Repr, DecidableEq

/-- Modelled from the spec: classify the new entries against the previously
applied entries of the same product: ADDED when no prior entry shares the
config id, UPDATED when the prior entry's digest differs, UNCHANGED (excluded)
when digests agree, REMOVED for prior entries whose config id is no longer
resolved. -/
def diffProduct (prior newE : List ConfigEntry) : ProductDiff :=
  { added := newE.filter
      (fun e => (prior.find? (fun o => o.configId == e.configId)).isNone)
  , updated := newE.filter
      (fun e =>
        match prior.find? (fun o => o.configId == e.configId) with
        | some o => o.hash != e.hash
        | none => false)
  , removed := prior.filter
      (fun o => (newE.find? (fun e => e.configId == o.configId)).isNone) }

/-- A diff with no added, updated or removed entry: the product is excluded
from the response's effective diff and triggers no callback. -/
def ProductDiff.isEmpty (d : ProductDiff) : Bool :=
  d.added.isEmpty && d.updated.isEmpty && d.removed.isEmpty

/-- A recorded callback invocation: which callback, for which product, with
the full current config list for that product after applying the diff. -/
structure Invocation where
  callback : Callback
  product : String
  configs : List ConfigEntry
deriving Repr, DecidableEq

/-- Replace (or add) the applied-entry list of one product in the client
state's product map. -/
def updateAppliedIn (applied : List (String × List ConfigEntry)) (p : String)
    (entries : List ConfigEntry) : List (String × List ConfigEntry) :=
  match applied with
  | [] => [(p, entries)]
  | (q, es) :: rest =>
      if q = p then (p, entries) :: rest
      else (q, es) :: updateAppliedIn rest p entries

/-- Modelled from the spec: resolve one registered product against the prior
state `st`: when the diff is empty the product is skipped (`none`);
otherwise return the product's new full entry list — apply state ERROR for
every entry when some callback for the product raised, ACKNOWLEDGED otherwise
— together with one invocation per registered callback, in registration
order, each receiving that full list. -/
def resolveOne (beh : Callback → Bool) (b : Bundle) (tm : TargetsMeta)
    (st : ClientState) (pr : String × List Callback) :
    Option (List ConfigEntry × List Invocation) :=
  let p := pr.1
  let d := diffProduct (st.appliedFor p) (newEntries b tm p)
  if d.isEmpty then none
  else
    let raised := pr.2.any beh
    let finalE := (newEntries b tm p).map
      (fun e =>
        { e with applyState := if raised then .ERROR else .ACKNOWLEDGED })
    some (finalE, pr.2.map
      (fun cb => { callback := cb, product := p, configs := finalE }))

/-- One fold step of the product walk: a product with an empty diff leaves the
accumulator alone; a changed product has its applied-entry list replaced and
its invocations appended. -/
def stepProduct (beh : Callback → Bool) (b : Bundle) (tm : TargetsMeta)
    (st : ClientState) (acc : ClientState × List Invocation)
    (pr : String × List Callback) : ClientState × List Invocation :=
  match resolveOne beh b tm st pr with
  | none => acc
  | some (finalE, newInvs) =>
      ({ acc.1 with applied := updateAppliedIn acc.1.applied pr.1 finalE },
       acc.2 ++ newInvs)

/-- Modelled from the spec: walk the registered products in registration
order; every changed product has its applied-entry list replaced and its
callbacks invoked; a raising callback never stops the remaining callbacks or
the other products. -/
def stepProducts (beh : Callback → Bool) (b : Bundle) (tm : TargetsMeta)
    (prods : List (String × List Callback)) (st : ClientState)
    (st0 : ClientState) : ClientState × List Invocation :=
  prods.foldl (stepProduct beh b tm st) (st0, [])

/-- Modelled from the spec: one full processing pass over a poll response:
decode, root rotation, targets verification, then resolve and dispatch; any
error aborts the pass before any state is committed.  An absent targets blob
means "no change since last poll": only root rotation applies. -/
def processResponseE (reg : Registry) (beh : Callback → Bool) (now : Nat)
    (st : ClientState) (w : WireResponse) :
    Except RCError (ClientState × List Invocation) := do
  let b ← decode w
  let newRoot ← applyRootRotation b.roots st.rootVersion
  match b.targets with
  | none => .ok ({ st with rootVersion := newRoot }, [])
  | some tm => do
      let tm' ← verify_targets tm st.targetsVersion now
      let st0 : ClientState :=
        { st with rootVersion := newRoot, targetsVersion := tm'.version,
                  backendState := tm'.opaqueBackendState }
      .ok (stepProducts beh b tm' reg.products st st0)

/-- Modelled from the spec: the worker's recovery policy — on any decode or
trust error the whole response is discarded, the previous client state is
retained unchanged, and no callback is invoked. -/
def processResponse (reg : Registry) (beh : Callback → Bool) (now : Nat)
    (st : ClientState) (w : WireResponse) : ClientState × List Invocation :=
  match processResponseE reg beh now st w with
  | .ok r => r
  | .error _ => (st, [])

/-- Fold a sequence of poll responses through the worker. -/
def processAll (reg : Registry) (beh : Callback → Bool) (now : Nat)
    (st : ClientState) (ws : List WireResponse) : ClientState :=
  ws.foldl (fun s w => (processResponse reg beh now s w).1) st

/-- Modelled from the spec: the per-config state reported back to the agent on
the next poll request: identity, digest and apply state (ERROR carries the
error detail upstream). -/
structure ConfigReport where
  product : String
  configId : String
  hash : Nat
  state : ApplyState
deriving Repr, DecidableEq

/-- Modelled from the spec: the next outbound poll request: last root and
targets versions, opaque backend-state token, subscribed products and the
per-config apply states. -/
structure PollRequest where
  rootVersion : Nat
  targetsVersion : Nat
  backendState : String
  subscribed : List String
  configStates : List ConfigReport
deriving Repr, DecidableEq

/-- Modelled from the spec: build the next poll request from the registry and
the current client state. -/
def buildRequest (reg : Registry) (st : ClientState) : PollRequest :=
  { rootVersion := st.rootVersion
  , targetsVersion := st.targetsVersion
  , backendState := st.backendState
  , subscribed := subscribedProducts reg
  , configStates :=
      st.applied.flatMap
        (fun pr =>
          pr.2.map
            (fun e =>
              { product := e.product, configId := e.configId, hash := e.hash,
                state := e.applyState })) }

/-- The apply-state relabeling the product walk performs on a changed
product's entries: ERROR when one of the product's callbacks raised,
ACKNOWLEDGED otherwise. -/
def stateify (r : Bool) (l : List ConfigEntry) : List ConfigEntry :=
  l.map (fun e =>
    { e with applyState := if r then ApplyState.ERROR else .ACKNOWLEDGED })

/-- The config ids of a resolved entry list are pairwise distinct (the
last-write-wins insert guarantees this). -/
def IdsNodup (l : List ConfigEntry) : Prop :=
  List.Pairwise (fun a b => a.configId ≠ b.configId) l

/-- The identity-and-content part of a config entry: what a callback observes
apart from bookkeeping. -/
def entryEssence (e : ConfigEntry) : String × Nat := (e.configId, e.hash)

/-- The behavior-independent part of an invocation: which callback, which
product, which config identities and hashes. -/
def invEssence (i : Invocation) : Callback × String × List (String × Nat) :=
  (i.callback, i.product, i.configs.map entryEssence)

/-- Worker lifecycle states, from the spec's state machine. -/
inductive WorkerStatus where
  | DISABLED
  | STARTING
  | POLLING
deriving Repr, DecidableEq

/-- Modelled from the spec: the polling worker: its lifecycle status and the
client state it exclusively owns. -/
structure Worker where
  status : WorkerStatus
  state : ClientState
deriving Repr, DecidableEq

/-- Modelled from the spec: a freshly enabled worker: STARTING with a fresh
client state. -/
def startWorker : Worker :=
  { status := .STARTING, state := initialClientState }

/-- Modelled from the spec: after a fork is detected in the child, the worker
tears down and recreates itself — a new client state and a new STARTING
status — rather than resuming the parent's POLLING state. -/
def forkChild (_parent : Worker) : Worker := startWorker

/-- The two-process view right after a fork: the parent keeps its worker, the
child gets the recreated one. -/
def forkPair (parent : Worker) : Worker × Worker := (parent, forkChild parent)

/-- Mutate the parent process's client state, leaving the child process's
worker untouched (the processes share nothing after the fork). -/
def mutateParent (pc : Worker × Worker) (f : ClientState → ClientState) :
    Worker × Worker :=
  ({ pc.1 with state := f pc.1.state }, pc.2)

/-- Mutate the child process's client state, leaving the parent process's
worker untouched. -/
def mutateChild (pc : Worker × Worker) (f : ClientState → ClientState) :
    Worker × Worker :=
  (pc.1, { pc.2 with state := f pc.2.state })

/-- The remote-config agent endpoint name the health gate looks for. -/
def REMOTE_CONFIG_AGENT_ENDPOINT : String := "v0.7/config"

/-- Modelled from the spec: the agent's info response as the health gate
consumes it: the response itself may be null, and a present response may lack
the `endpoints` list. -/
structure InfoResponse where
  endpoints : Option (List String)
deriving Repr, DecidableEq

/-- Modelled from the spec: the health gate — true iff the response is present
and its advertised endpoint list contains the remote-config endpoint name,
matched exactly or with a single leading '/' prepended; a null response, a
missing or empty endpoint list, or a list without the name yield false. -/
def checkRemoteConfigEnableInAgent (resp : Option InfoResponse) : Bool :=
  match resp with
  | none => false
  | some r =>
      match r.endpoints with
      | none => false
      | some es =>
          es.contains REMOTE_CONFIG_AGENT_ENDPOINT ||
          es.contains ("/" ++ REMOTE_CONFIG_AGENT_ENDPOINT)

/-- Sample fixture mirroring the test suite's mock response: one target file
for product "P" with a correct digest, targets version 5, one new root v2. -/
def samplePath : String := "datadog/2/P/cfg1/config"

/-- Sample file bytes. -/
def sampleBytes : List Nat := [1, 2, 3]

/-- Sample targets metadata for the fixture response. -/
def sampleTargets : TargetsMeta :=
  { version := 5, expires := 100, opaqueBackendState := "tok",
    targets := [(samplePath,
      { hash := contentHash sampleBytes, length := 3 })] }

/-- Sample wire response (roots carry v2, one well-formed target file). -/
def sampleWire : WireResponse :=
  { roots := [⟨2⟩], targets := some sampleTargets,
    target_files := [{ path := samplePath, raw := sampleBytes }],
    client_configs := [samplePath] }

/-- The bundle `decode` produces for the sample wire response. -/
def sampleBundle : Bundle :=
  { roots := [⟨2⟩], targets := some sampleTargets,
    files := [(samplePath, sampleBytes)],
    client_configs := [samplePath] }

/-- A registry with a single callback (handle 10) for product "P". -/
def sampleRegistry : Registry := ⟨[("P", [10])]⟩

/-- The behavior under which no callback ever raises. -/
def behNever : Callback → Bool := fun _ => false

/-- Path of a sibling product "Q"'s config. -/
def samplePathQ : String := "datadog/2/Q/cfgq/config"

/-- Targets metadata delivering one config each for products "P" and "Q". -/
def sampleTargets2 : TargetsMeta :=
  { version := 5, expires := 100, opaqueBackendState := "tok",
    targets := [(samplePath, { hash := contentHash sampleBytes, length := 3 }),
                (samplePathQ, { hash := contentHash [4, 5], length := 2 })] }

/-- Wire response delivering configs for both "P" and "Q". -/
def sampleWire2 : WireResponse :=
  { roots := [], targets := some sampleTargets2,
    target_files := [{ path := samplePath, raw := sampleBytes },
                     { path := samplePathQ, raw := [4, 5] }],
    client_configs := [samplePath, samplePathQ] }

/-- The bundle `decode` produces for the two-product wire response. -/
def sampleBundle2 : Bundle :=
  { roots := [], targets := some sampleTargets2,
    files := [(samplePath, sampleBytes), (samplePathQ, [4, 5])],
    client_configs := [samplePath, samplePathQ] }

/-- A registry with callback 10 for "P" and callback 20 for "Q". -/
def sampleRegistry2 : Registry := ⟨[("P", [10]), ("Q", [20])]⟩

/-- The behavior under which exactly "P"'s callback (handle 10) raises. -/
def behRaiseP : Callback → Bool := fun cb => cb == 10

/-- A previously applied entry for product "P". -/
def sampleEntry : ConfigEntry :=
  { product := "P", configId := "cfg1", path := samplePath,
    content := sampleBytes, hash := contentHash sampleBytes,
    applyState := .ACKNOWLEDGED }

/-- A client state that has the sample entry applied for "P". -/
def sampleStateApplied : ClientState :=
  { rootVersion := 2, targetsVersion := 5, backendState := "tok",
    applied := [("P", [sampleEntry])] }

/-- A follow-up response whose `client_configs` no longer lists "P"'s config:
the entry must be detected as removed. -/
def sampleTargetsRemoval : TargetsMeta :=
  { version := 6, expires := 100, opaqueBackendState := "tok2", targets := [] }

/-- Wire response for the removal scenario. -/
def sampleWireRemoval : WireResponse :=
  { roots := [], targets := some sampleTargetsRemoval, target_files := [],
    client_configs := [] }

/-- The bundle `decode` produces for the removal wire response. -/
def sampleBundleRemoval : Bundle :=
  { roots := [], targets := some sampleTargetsRemoval, files := [],
    client_configs := [] }

end RemoteConfig

namespace Tornado

/-- The attributes of a returned Future-like object that
`_finish_span` (src/ddtrace/contrib/tornado/decorators.py) probes: which of
`exc_info` / `exception` / `exception_info` are callable, what they return,
and whether the exception object carries a `__traceback__`.  Exceptions and
tracebacks are abstracted to numeric identities. -/
structure FutureState where
  hasExcInfo : Bool
  excInfoVal : Option Nat
  hasException : Bool
  hasExceptionInfo : Bool
  exceptionInfoExc : Option Nat
  exceptionInfoTb : Option Nat
  exceptionVal : Option Nat
  excHasTraceback : Bool
deriving Repr, DecidableEq

/-- The observable span operations `wrap_executor` and `_finish_span`
perform, in order. -/
inductive SpanEvent where
  | setTagStr
  | setExcInfo (e : Option Nat)
  | setTraceback
  | finishSpan
deriving Repr, DecidableEq, BEq

/-- `_finish_span` from src/ddtrace/contrib/tornado/decorators.py:8-48 as the
span-event trace it produces when the future completes: nothing when no span
is attached to the future; otherwise the branch ladder over `exc_info`,
`exception_info` and `exception` records the future's exception (falling back
to the thread's currently handled exception `threadExc` when the exception
object has no traceback attached), and the span is finished. -/
def finish_span (spanAttached : Bool) (f : FutureState)
    (threadExc : Option Nat) : List SpanEvent :=
  if spanAttached then
    (if f.hasExcInfo then
       match f.excInfoVal with
       | some e => [.setExcInfo (some e)]
       | none => []
     else if f.hasException then
       if f.hasExceptionInfo then
         match f.exceptionInfoExc, f.exceptionInfoTb with
         | some e, some _ => [.setExcInfo (some e)]
         | _, _ => []
       else
         match f.exceptionVal with
         | some e =>
             if f.excHasTraceback then [.setExcInfo (some e)]
             else [.setExcInfo threadExc]
         | none => []
     else []) ++ [.finishSpan]
  else []

/-- What calling the wrapped function does: return a plain value, return a
Future-like object, or raise. -/
inductive FnResult where
  | value
  | future (fut : FutureState)
  | raises (e : Nat)
deriving Repr, DecidableEq

/-- The visible outcome of `wrap_executor` over the call's whole lifecycle. -/
inductive Outcome where
  | value
  | futureReturned
  | raised (e : Nat)
deriving Repr, DecidableEq

/-- `wrap_executor` from src/ddtrace/contrib/tornado/decorators.py:51-82 as
the span-event trace over the whole lifecycle of the call: the span is opened
and tagged; a raising call records the traceback, finishes the span and
re-raises; a plain value finishes the span immediately; a returned Future gets
the span attached and `_finish_span` registered as done-callback, whose
events (on the future's completion) follow. -/
def wrap_executor (r : FnResult) (threadExc : Option Nat) :
    List SpanEvent × Outcome :=
  match r with
  | .raises e => ([.setTagStr, .setTraceback, .finishSpan], .raised e)
  | .value => ([.setTagStr, .finishSpan], .value)
  | .future fut =>
      (.setTagStr :: finish_span true fut threadExc, .futureReturned)

/-- A sample completed coroutine future carrying exception 4 via exc_info. -/
def sampleFuture : FutureState :=
  { hasExcInfo := true, excInfoVal := some 4, hasException := false,
    hasExceptionInfo := false, exceptionInfoExc := none,
    exceptionInfoTb := none, exceptionVal := none, excHasTraceback := false }

end Tornado

namespace RemoteConfig

/-- C8: the health gate returns true iff the info response is present, carries
an endpoints list, and that list contains the remote-config endpoint name
exactly or with a single leading '/' prepended; a null response, a missing or
empty endpoints list, or a list without that name all yield false. -/
theorem c8_health_gate_decision (resp : Option InfoResponse) :
    checkRemoteConfigEnableInAgent resp = true ↔
      ∃ es, resp = some ⟨some es⟩ ∧
        (REMOTE_CONFIG_AGENT_ENDPOINT ∈ es ∨
          "/" ++ REMOTE_CONFIG_AGENT_ENDPOINT ∈ es) := by
  cases resp with
  | none => simp [checkRemoteConfigEnableInAgent]
  | some r =>
      obtain ⟨eps⟩ := r
      cases eps with
      | none => simp [checkRemoteConfigEnableInAgent]
      | some es => simp [checkRemoteConfigEnableInAgent]

/-- C9: after a fork the child process's worker is recreated fresh: STARTING
status (never the parent's POLLING state) with the fresh initial client state;
and mutating either process's client state leaves the other process's worker
untouched. -/
theorem c9_fork_isolation (parent : Worker)
    (f g : ClientState → ClientState) :
    (forkPair parent).2 = startWorker ∧
    (forkPair parent).2.status = .STARTING ∧
    (forkPair parent).2.status ≠ .POLLING ∧
    (forkPair parent).2.state = initialClientState ∧
    (mutateParent (forkPair parent) f).2 = (forkPair parent).2 ∧
    (mutateChild (forkPair parent) g).1 = (forkPair parent).1 ∧
    (mutateParent (forkPair parent) f).1.state = f parent.state ∧
    (mutateChild (forkPair parent) g).2.state = g initialClientState := by
  refine ⟨rfl, rfl, by simp [forkPair, forkChild, startWorker], rfl, rfl, rfl,
    rfl, rfl⟩

/-- Registering an already-registered pair again leaves the list exactly as
the first registration left it. -/
lemma registerIn_idem (ps : List (String × List Callback)) (p : String)
    (cb : Callback) :
    registerIn (registerIn ps p cb) p cb = registerIn ps p cb := by
  induction ps with
  | nil => simp [registerIn]
  | cons hd tl ih =>
      obtain ⟨q, cbs⟩ := hd
      by_cases hq : q = p
      · subst hq
        by_cases hcb : cb ∈ cbs
        · simp [registerIn, hcb]
        · simp [registerIn, hcb]
      · simp [registerIn, hq, ih]

/-- Looking up the registered product after `registerIn`: the old list when
the callback was already present, the old list with the callback appended
otherwise. -/
lemma lookup_registerIn (ps : List (String × List Callback)) (p : String)
    (cb : Callback) :
    List.lookup p (registerIn ps p cb) =
      some (if cb ∈ (List.lookup p ps).getD [] then (List.lookup p ps).getD []
            else (List.lookup p ps).getD [] ++ [cb]) := by
  induction ps with
  | nil => simp [registerIn]
  | cons hd tl ih =>
      obtain ⟨q, cbs⟩ := hd
      by_cases hq : q = p
      · subst hq
        by_cases hcb : cb ∈ cbs
        · simp [registerIn, hcb, List.lookup_cons]
        · simp [registerIn, hcb, List.lookup_cons]
      · have hne : (p == q) = false := by
          simp [hq]
          intro h
          exact absurd h.symm hq
        simp [registerIn, hq, List.lookup_cons, hne, ih]

/-- A successful decode copies the envelope's fields into the bundle. -/
lemma decode_ok_inv {w : WireResponse} {b : Bundle} (h : decode w = .ok b) :
    b.roots = w.roots ∧ b.targets = w.targets ∧
    b.files = w.target_files.map (fun f => (f.path, f.raw)) ∧
    b.client_configs = w.client_configs := by
  cases ht : w.targets with
  | none =>
      simp only [decode, ht, Except.ok.injEq] at h
      subst h
      simp [ht]
  | some tm =>
      simp only [decode, ht] at h
      by_cases hany : w.target_files.any (fileMismatch tm) = true
      · simp [hany] at h
      · simp only [hany, Bool.false_eq_true, if_neg, ite_false,
          Except.ok.injEq] at h
        subst h
        simp [ht]

/-- A successful root rotation never regresses and dominates every delivered
root version. -/
lemma applyRootRotation_le {roots : List RootMeta} {cur v : Nat}
    (h : applyRootRotation roots cur = .ok v) :
    cur ≤ v ∧ ∀ r ∈ roots, r.version ≤ v := by
  induction roots generalizing cur with
  | nil =>
      simp only [applyRootRotation, Except.ok.injEq] at h
      subst h
      exact ⟨le_rfl, by simp⟩
  | cons r rest ih =>
      by_cases hle : r.version ≤ cur
      · simp only [applyRootRotation, if_pos hle] at h
        obtain ⟨h1, h2⟩ := ih h
        refine ⟨h1, ?_⟩
        intro x hx
        rcases List.mem_cons.mp hx with hx | hx
        · subst hx; omega
        · exact h2 x hx
      · simp only [applyRootRotation, if_neg hle, verify_root] at h
        by_cases hv : r.version = cur + 1
        · simp only [if_pos hv] at h
          obtain ⟨h1, h2⟩ := ih h
          refine ⟨by omega, ?_⟩
          intro x hx
          rcases List.mem_cons.mp hx with hx | hx
          · subst hx; omega
          · exact h2 x hx
        · simp [if_neg hv] at h

/-- Roots that are all at or below the trusted version are already-known
history: rotation over them is a no-op. -/
lemma applyRootRotation_all_le {roots : List RootMeta} {cur : Nat}
    (h : ∀ r ∈ roots, r.version ≤ cur) :
    applyRootRotation roots cur = .ok cur := by
  induction roots with
  | nil => rfl
  | cons r rest ih =>
      simp only [applyRootRotation, if_pos (h r (List.mem_cons_self r rest))]
      exact ih (fun x hx => h x (List.mem_cons_of_mem r hx))

/-- On success, rotation advances the trusted root exactly along the gap-free
fold: each delivered root is accepted precisely when its version is the
running current version plus one. -/
lemma applyRootRotation_fold {roots : List RootMeta} {cur v : Nat}
    (h : applyRootRotation roots cur = .ok v) :
    v = roots.foldl
          (fun c r => if r.version = c + 1 then r.version else c) cur := by
  induction roots generalizing cur with
  | nil =>
      simp only [applyRootRotation, Except.ok.injEq] at h
      simp [h]
  | cons r rest ih =>
      by_cases hle : r.version ≤ cur
      · have hne : ¬ r.version = cur + 1 := by omega
        simp only [applyRootRotation, if_pos hle] at h
        simp only [List.foldl_cons, if_neg hne]
        exact ih h
      · simp only [applyRootRotation, if_neg hle, verify_root] at h
        by_cases hv : r.version = cur + 1
        · simp only [if_pos hv] at h
          simp only [List.foldl_cons, if_pos hv]
          exact ih h
        · simp [if_neg hv] at h

/-- A successful targets verification returns the candidate unchanged, and
certifies that the version did not regress and the expiration is in the
future. -/
lemma verify_targets_ok_inv {tm : TargetsMeta} {tv now : Nat}
    {tm2 : TargetsMeta} (h : verify_targets tm tv now = .ok tm2) :
    tm2 = tm ∧ tv ≤ tm.version ∧ now < tm.expires := by
  unfold verify_targets at h
  by_cases h1 : tm.version < tv
  · simp [h1] at h
  · by_cases h2 : tm.expires ≤ now
    · simp [h1, h2] at h
    · simp only [if_neg h1, if_neg h2, Except.ok.injEq] at h
      exact ⟨h.symm, by omega, by omega⟩

/-- Inversion of a successful processing pass: it decomposes into a successful
decode, a successful root rotation, and either no targets blob (root-only
update, no invocations) or a successful targets verification followed by the
product walk. -/
lemma processResponseE_ok_inv {reg : Registry} {beh : Callback → Bool}
    {now : Nat} {st : ClientState} {w : WireResponse}
    {r : ClientState × List Invocation}
    (h : processResponseE reg beh now st w = .ok r) :
    ∃ b newRoot, decode w = .ok b ∧
      applyRootRotation b.roots st.rootVersion = .ok newRoot ∧
      ((b.targets = none ∧ r = ({ st with rootVersion := newRoot }, [])) ∨
       (∃ tm, b.targets = some tm ∧
         verify_targets tm st.targetsVersion now = .ok tm ∧
         r = stepProducts beh b tm reg.products st
               { st with rootVersion := newRoot,
                         targetsVersion := tm.version,
                         backendState := tm.opaqueBackendState })) := by
  cases hd : decode w with
  | error e => simp [processResponseE, hd, Bind.bind, Except.bind] at h
  | ok b =>
      cases hr : applyRootRotation b.roots st.rootVersion with
      | error e => simp [processResponseE, hd, hr, Bind.bind, Except.bind] at h
      | ok newRoot =>
          cases htm : b.targets with
          | none =>
              refine ⟨b, newRoot, rfl, hr, .inl ⟨htm, ?_⟩⟩
              simp only [processResponseE, hd, hr, htm, Bind.bind, Except.bind,
                Except.ok.injEq] at h
              exact h.symm
          | some tm =>
              cases hv : verify_targets tm st.targetsVersion now with
              | error e => simp [processResponseE, hd, hr, htm, hv, Bind.bind, Except.bind] at h
              | ok tm2 =>
                  obtain ⟨rfl, _, _⟩ := verify_targets_ok_inv hv
                  refine ⟨b, newRoot, rfl, hr, .inr ⟨tm2, htm, hv, ?_⟩⟩
                  simp only [processResponseE, hd, hr, htm, hv, Bind.bind,
                    Except.bind, Except.ok.injEq] at h
                  exact h.symm

/-- A decode failure discards the response: state retained, no invocation. -/
lemma processResponse_decode_error {reg : Registry} {beh : Callback → Bool}
    {now : Nat} {st : ClientState} {w : WireResponse} {e : RCError}
    (h : decode w = .error e) : processResponse reg beh now st w = (st, []) := by
  simp [processResponse, processResponseE, h, Bind.bind, Except.bind]

/-- A root-rotation failure discards the response: state retained, no
invocation. -/
lemma processResponse_rotation_error {reg : Registry} {beh : Callback → Bool}
    {now : Nat} {st : ClientState} {w : WireResponse} {e : RCError}
    (h : applyRootRotation w.roots st.rootVersion = .error e) :
    processResponse reg beh now st w = (st, []) := by
  cases hd : decode w with
  | error e' => exact processResponse_decode_error hd
  | ok b =>
      have hb := (decode_ok_inv hd).1
      rw [← hb] at h
      simp [processResponse, processResponseE, hd, h, Bind.bind, Except.bind]

/-- A targets-verification failure discards the response: state retained, no
invocation. -/
lemma processResponse_targets_error {reg : Registry} {beh : Callback → Bool}
    {now : Nat} {st : ClientState} {w : WireResponse} {tm : TargetsMeta}
    {e : RCError} (ht : w.targets = some tm)
    (h : verify_targets tm st.targetsVersion now = .error e) :
    processResponse reg beh now st w = (st, []) := by
  cases hd : decode w with
  | error e' => exact processResponse_decode_error hd
  | ok b =>
      obtain ⟨hbr, hbt, _, _⟩ := decode_ok_inv hd
      cases hr : applyRootRotation b.roots st.rootVersion with
      | error e2 =>
          rw [hbr] at hr
          exact processResponse_rotation_error hr
      | ok nr =>
          rw [ht] at hbt
          simp [processResponse, processResponseE, hd, hr, hbt, h,
            Bind.bind, Except.bind]

/-- The product walk only rewrites the applied-config map: the version fields
and the backend-state token of the accumulator are untouched. -/
lemma foldl_stepProduct_fields (beh : Callback → Bool) (b : Bundle)
    (tm : TargetsMeta) (st : ClientState)
    (prods : List (String × List Callback)) :
    ∀ acc : ClientState × List Invocation,
      (prods.foldl (stepProduct beh b tm st) acc).1.rootVersion
          = acc.1.rootVersion ∧
      (prods.foldl (stepProduct beh b tm st) acc).1.targetsVersion
          = acc.1.targetsVersion ∧
      (prods.foldl (stepProduct beh b tm st) acc).1.backendState
          = acc.1.backendState := by
  induction prods with
  | nil => intro acc; exact ⟨rfl, rfl, rfl⟩
  | cons pr rest ih =>
      intro acc
      have hsp : (stepProduct beh b tm st acc pr).1.rootVersion
            = acc.1.rootVersion ∧
          (stepProduct beh b tm st acc pr).1.targetsVersion
            = acc.1.targetsVersion ∧
          (stepProduct beh b tm st acc pr).1.backendState
            = acc.1.backendState := by
        unfold stepProduct
        cases resolveOne beh b tm st pr with
        | none => exact ⟨rfl, rfl, rfl⟩
        | some pa => obtain ⟨fE, nI⟩ := pa; exact ⟨rfl, rfl, rfl⟩
      have h := ih (stepProduct beh b tm st acc pr)
      simp only [List.foldl_cons]
      exact ⟨h.1.trans hsp.1, h.2.1.trans hsp.2.1, h.2.2.trans hsp.2.2⟩

/-- The version fields and backend state the product walk commits are the ones
of the post-verification state. -/
lemma stepProducts_fields (beh : Callback → Bool) (b : Bundle)
    (tm : TargetsMeta) (prods : List (String × List Callback))
    (st st0 : ClientState) :
    (stepProducts beh b tm prods st st0).1.rootVersion = st0.rootVersion ∧
    (stepProducts beh b tm prods st st0).1.targetsVersion
        = st0.targetsVersion ∧
    (stepProducts beh b tm prods st st0).1.backendState = st0.backendState :=
  foldl_stepProduct_fields beh b tm st prods (st0, [])

/-- One processing pass never lowers the trusted targets version. -/
lemma processResponse_targetsVersion_mono (reg : Registry)
    (beh : Callback → Bool) (now : Nat) (st : ClientState)
    (w : WireResponse) :
    st.targetsVersion ≤ (processResponse reg beh now st w).1.targetsVersion := by
  cases hp : processResponseE reg beh now st w with
  | error e => simp [processResponse, hp]
  | ok r =>
      obtain ⟨b, nr, hd, hr, hcase⟩ := processResponseE_ok_inv hp
      rcases hcase with ⟨htm, hre⟩ | ⟨tm, htm, hv, hre⟩
      · simp [processResponse, hp, hre]
      · obtain ⟨_, hle, _⟩ := verify_targets_ok_inv hv
        have hstep := (stepProducts_fields beh b tm reg.products st
          { st with rootVersion := nr, targetsVersion := tm.version,
                    backendState := tm.opaqueBackendState }).2.1
        simp only [processResponse, hp]
        rw [hre, hstep]
        exact hle

/-- C4: `verify_root` succeeds exactly when the candidate version is the
current version plus one (and fails with a trust error otherwise); a response
delivering several new roots is applied one version at a time — on success the
trusted root climbs the gap-free fold over the delivered list, dominating
every delivered version — and a failure at any link rejects the response,
leaving the previously trusted root and the whole client state in place. -/
theorem c4_stepwise_root_rotation :
    (∀ (cand : RootMeta) (cur : Nat),
        verify_root cand cur = .ok cand.version ↔ cand.version = cur + 1) ∧
    (∀ (cand : RootMeta) (cur : Nat), cand.version ≠ cur + 1 →
        verify_root cand cur = .error .trustErrorRoot) ∧
    (∀ (roots : List RootMeta) (cur v : Nat),
        applyRootRotation roots cur = .ok v →
        cur ≤ v ∧ (∀ r ∈ roots, r.version ≤ v) ∧
        v = roots.foldl
              (fun c r => if r.version = c + 1 then r.version else c) cur) ∧
    (∀ (reg : Registry) (beh : Callback → Bool) (now : Nat)
        (st : ClientState) (w : WireResponse) (e : RCError),
        applyRootRotation w.roots st.rootVersion = .error e →
        processResponse reg beh now st w = (st, [])) := by
  refine ⟨?_, ?_, ?_, ?_⟩
  · intro cand cur
    constructor
    · intro h
      by_contra hne
      simp [verify_root, hne] at h
    · intro h
      simp [verify_root, h]
  · intro cand cur h
    simp [verify_root, h]
  · intro roots cur v h
    obtain ⟨h1, h2⟩ := applyRootRotation_le h
    exact ⟨h1, h2, applyRootRotation_fold h⟩
  · intro reg beh now st w e h
    exact processResponse_rotation_error h

/-- C1: monotonic trust — over any sequence of processed responses the trusted
targets version never decreases, and a response whose targets version is
strictly below the currently trusted one makes `verify_targets` fail with the
replay-protection trust error, the whole response is rejected, and the client
state is returned unchanged with no invocation. -/
theorem c1_monotonic_trust (reg : Registry) (beh : Callback → Bool)
    (now : Nat) :
    (∀ (st : ClientState) (ws : List WireResponse),
        st.targetsVersion ≤ (processAll reg beh now st ws).targetsVersion) ∧
    (∀ (st : ClientState) (w : WireResponse) (tm : TargetsMeta),
        w.targets = some tm → tm.version < st.targetsVersion →
        verify_targets tm st.targetsVersion now =
          .error .trustErrorTargetsVersion ∧
        processResponse reg beh now st w = (st, [])) := by
  constructor
  · intro st ws
    induction ws generalizing st with
    | nil => exact le_rfl
    | cons w rest ih =>
        calc st.targetsVersion
            ≤ (processResponse reg beh now st w).1.targetsVersion :=
              processResponse_targetsVersion_mono reg beh now st w
          _ ≤ (processAll reg beh now
                (processResponse reg beh now st w).1 rest).targetsVersion :=
              ih (processResponse reg beh now st w).1
  · intro st w tm ht hlt
    have hv : verify_targets tm st.targetsVersion now =
        .error .trustErrorTargetsVersion := by
      simp [verify_targets, hlt]
    exact ⟨hv, processResponse_targets_error ht hv⟩

/-- A hash or length mismatch on a listed target file makes the file fail the
integrity check. -/
lemma fileMismatch_true {tm : TargetsMeta} {f : TargetFile} {spec : TargetSpec}
    (hs : tm.targets.lookup f.path = some spec)
    (hm : contentHash f.raw ≠ spec.hash ∨ f.raw.length ≠ spec.length) :
    fileMismatch tm f = true := by
  unfold fileMismatch
  rw [hs]
  rcases hm with hm | hm <;> simp [hm]

/-- C2: hash integrity — whenever some delivered target file's actual content
hash or length differs from what the targets metadata declares for its path,
`decode` fails with the decode error, the whole response is discarded with the
client state unchanged, and no callback is invoked at all (so none ever sees
the mismatching bytes). -/
theorem c2_hash_integrity (reg : Registry) (beh : Callback → Bool) (now : Nat)
    (st : ClientState) (w : WireResponse) (tm : TargetsMeta) (f : TargetFile)
    (spec : TargetSpec) (ht : w.targets = some tm) (hf : f ∈ w.target_files)
    (hs : tm.targets.lookup f.path = some spec)
    (hm : contentHash f.raw ≠ spec.hash ∨ f.raw.length ≠ spec.length) :
    decode w = .error .decodeError ∧
    processResponse reg beh now st w = (st, []) := by
  have hmt : fileMismatch tm f = true := fileMismatch_true hs hm
  have hany : w.target_files.any (fileMismatch tm) = true :=
    List.any_eq_true.mpr ⟨f, hf, hmt⟩
  have hdec : decode w = .error .decodeError := by
    simp [decode, ht, hany]
  exact ⟨hdec, processResponse_decode_error hdec⟩

/-- A string that differs from another compares false under `==`. -/
lemma string_beq_false {p q : String} (h : ¬ p = q) : (p == q) = false := by
  rw [beq_eq_false_iff_ne]
  exact h

/-- A boolean that is not true is false. -/
lemma bool_eq_false {b : Bool} (h : ¬ b = true) : b = false := by
  cases b
  · rfl
  · exact absurd rfl h

/-- Closed form of `resolveOne`. -/
lemma resolveOne_eq (beh : Callback → Bool) (b : Bundle) (tm : TargetsMeta)
    (st : ClientState) (pr : String × List Callback) :
    resolveOne beh b tm st pr =
      if (diffProduct (st.appliedFor pr.1) (newEntries b tm pr.1)).isEmpty
      then none
      else some (stateify (pr.2.any beh) (newEntries b tm pr.1),
        pr.2.map (fun cb =>
          { callback := cb, product := pr.1,
            configs := stateify (pr.2.any beh) (newEntries b tm pr.1) })) :=
  rfl

/-- `resolveOne` returns `none` exactly on an empty diff. -/
lemma resolveOne_none_iff (beh : Callback → Bool) (b : Bundle)
    (tm : TargetsMeta) (st : ClientState) (pr : String × List Callback) :
    resolveOne beh b tm st pr = none ↔
      (diffProduct (st.appliedFor pr.1) (newEntries b tm pr.1)).isEmpty
        = true := by
  rw [resolveOne_eq]
  by_cases hd : (diffProduct (st.appliedFor pr.1)
      (newEntries b tm pr.1)).isEmpty = true
  · simp [hd]
  · simp [hd]

/-- Inversion of a changed product: the diff is non-empty, the committed
entries are the relabeled new entries, and the invocations are one per
callback, each carrying those entries. -/
lemma resolveOne_some_inv {beh : Callback → Bool} {b : Bundle}
    {tm : TargetsMeta} {st : ClientState} {pr : String × List Callback}
    {fE : List ConfigEntry} {nI : List Invocation}
    (h : resolveOne beh b tm st pr = some (fE, nI)) :
    (diffProduct (st.appliedFor pr.1) (newEntries b tm pr.1)).isEmpty
        = false ∧
    fE = stateify (pr.2.any beh) (newEntries b tm pr.1) ∧
    nI = pr.2.map
      (fun cb => { callback := cb, product := pr.1, configs := fE }) := by
  rw [resolveOne_eq] at h
  by_cases hd : (diffProduct (st.appliedFor pr.1)
      (newEntries b tm pr.1)).isEmpty = true
  · rw [if_pos hd] at h
    cases h
  · rw [if_neg hd] at h
    injection h with h'
    obtain ⟨h1, h2⟩ := Prod.mk.injEq .. |>.mp h'.symm
    exact ⟨bool_eq_false hd, h1, by rw [h1]; exact h2⟩

/-- A changed product always yields `some`. -/
lemma resolveOne_some_of_ne {beh : Callback → Bool} {b : Bundle}
    {tm : TargetsMeta} {st : ClientState} {pr : String × List Callback}
    (h : (diffProduct (st.appliedFor pr.1) (newEntries b tm pr.1)).isEmpty
        = false) :
    resolveOne beh b tm st pr =
      some (stateify (pr.2.any beh) (newEntries b tm pr.1),
        pr.2.map (fun cb =>
          { callback := cb, product := pr.1,
            configs := stateify (pr.2.any beh) (newEntries b tm pr.1) })) := by
  rw [resolveOne_eq, h]
  simp

/-- Looking up the product just written by `updateAppliedIn` yields the new
entry list. -/
lemma lookup_updateAppliedIn_self (a : List (String × List ConfigEntry))
    (p : String) (es : List ConfigEntry) :
    List.lookup p (updateAppliedIn a p es) = some es := by
  induction a with
  | nil => simp [updateAppliedIn, List.lookup_cons]
  | cons hd tl ih =>
      obtain ⟨q, es'⟩ := hd
      by_cases hq : q = p
      · subst hq
        simp [updateAppliedIn, List.lookup_cons]
      · simp [updateAppliedIn, hq, List.lookup_cons, string_beq_false
          (fun h => hq h.symm), ih]

/-- `updateAppliedIn` leaves every other product's entry list alone. -/
lemma lookup_updateAppliedIn_ne (a : List (String × List ConfigEntry))
    (p q : String) (es : List ConfigEntry) (h : ¬ q = p) :
    List.lookup q (updateAppliedIn a p es) = List.lookup q a := by
  induction a with
  | nil => simp [updateAppliedIn, List.lookup_cons, string_beq_false h]
  | cons hd tl ih =>
      obtain ⟨k, es'⟩ := hd
      by_cases hk : k = p
      · subst hk
        simp [updateAppliedIn, List.lookup_cons, string_beq_false h]
      · by_cases hqk : q = k
        · subst hqk
          simp [updateAppliedIn, hk, List.lookup_cons]
        · simp [updateAppliedIn, hk, List.lookup_cons,
            string_beq_false hqk, ih]

/-- Applied entries after one product's map entry is replaced. -/
lemma appliedFor_set (stx : ClientState) (p q : String)
    (es : List ConfigEntry) :
    ClientState.appliedFor
        { stx with applied := updateAppliedIn stx.applied p es } q
      = if q = p then es else stx.appliedFor q := by
  by_cases h : q = p
  · subst h
    simp [ClientState.appliedFor, lookup_updateAppliedIn_self]
  · simp [ClientState.appliedFor, lookup_updateAppliedIn_ne _ _ _ _ h, h]

/-- An unchanged product leaves the accumulator untouched. -/
lemma stepProduct_none {beh : Callback → Bool} {b : Bundle} {tm : TargetsMeta}
    {st : ClientState} {pr : String × List Callback}
    (h : resolveOne beh b tm st pr = none)
    (acc : ClientState × List Invocation) :
    stepProduct beh b tm st acc pr = acc := by
  simp [stepProduct, h]

/-- A changed product commits its entries and appends its invocations. -/
lemma stepProduct_some {beh : Callback → Bool} {b : Bundle} {tm : TargetsMeta}
    {st : ClientState} {pr : String × List Callback} {fE : List ConfigEntry}
    {nI : List Invocation} (h : resolveOne beh b tm st pr = some (fE, nI))
    (acc : ClientState × List Invocation) :
    stepProduct beh b tm st acc pr =
      ({ acc.1 with applied := updateAppliedIn acc.1.applied pr.1 fE },
       acc.2 ++ nI) := by
  simp [stepProduct, h]

/-- When no registered product changes, the whole walk is the identity. -/
lemma foldl_stepProduct_id {beh : Callback → Bool} {b : Bundle}
    {tm : TargetsMeta} {st : ClientState} :
    ∀ (prods : List (String × List Callback))
      (acc : ClientState × List Invocation),
      (∀ pr ∈ prods, resolveOne beh b tm st pr = none) →
      prods.foldl (stepProduct beh b tm st) acc = acc := by
  intro prods
  induction prods with
  | nil => intro acc _; rfl
  | cons pr rest ih =>
      intro acc h
      rw [List.foldl_cons,
        stepProduct_none (h pr (List.mem_cons_self pr rest)) acc]
      exact ih acc (fun x hx => h x (List.mem_cons_of_mem pr hx))

/-- Invocations already accumulated survive the rest of the walk. -/
lemma foldl_stepProduct_invs_mono {beh : Callback → Bool} {b : Bundle}
    {tm : TargetsMeta} {st : ClientState} :
    ∀ (prods : List (String × List Callback))
      (acc : ClientState × List Invocation) (i : Invocation),
      i ∈ acc.2 → i ∈ (prods.foldl (stepProduct beh b tm st) acc).2 := by
  intro prods
  induction prods with
  | nil => intro acc i h; exact h
  | cons pr rest ih =>
      intro acc i h
      rw [List.foldl_cons]
      apply ih
      cases hres : resolveOne beh b tm st pr with
      | none => rw [stepProduct_none hres]; exact h
      | some pa =>
          obtain ⟨fE, nI⟩ := pa
          rw [stepProduct_some hres]
          exact List.mem_append_left _ h

/-- Every invocation a changed registered product produces appears in the
walk's final invocation list. -/
lemma foldl_stepProduct_invs_mem {beh : Callback → Bool} {b : Bundle}
    {tm : TargetsMeta} {st : ClientState} {pr : String × List Callback}
    {fE : List ConfigEntry} {nI : List Invocation}
    (hres : resolveOne beh b tm st pr = some (fE, nI)) :
    ∀ (prods : List (String × List Callback))
      (acc : ClientState × List Invocation),
      pr ∈ prods → ∀ i ∈ nI,
        i ∈ (prods.foldl (stepProduct beh b tm st) acc).2 := by
  intro prods
  induction prods with
  | nil => intro acc h; cases h
  | cons hd rest ih =>
      intro acc hpr i hi
      rw [List.foldl_cons]
      rcases List.mem_cons.mp hpr with h | h
      · subst h
        apply foldl_stepProduct_invs_mono
        rw [stepProduct_some hres]
        exact List.mem_append_right _ hi
      · exact ih (stepProduct beh b tm st acc hd) h i hi

/-- After the walk, a product's applied entries are either untouched — and
then no registered entry for that product changed — or they are the relabeled
new entries for that product (for some raising flag). -/
lemma foldl_stepProduct_appliedFor (beh : Callback → Bool) (b : Bundle)
    (tm : TargetsMeta) (st : ClientState) :
    ∀ (prods : List (String × List Callback))
      (acc : ClientState × List Invocation) (q : String),
      ((prods.foldl (stepProduct beh b tm st) acc).1.appliedFor q
          = acc.1.appliedFor q ∧
        ∀ pr ∈ prods, pr.1 = q → resolveOne beh b tm st pr = none) ∨
      (∃ r : Bool,
        (prods.foldl (stepProduct beh b tm st) acc).1.appliedFor q
          = stateify r (newEntries b tm q)) := by
  intro prods
  induction prods with
  | nil =>
      intro acc q
      exact .inl ⟨rfl, by simp⟩
  | cons pr rest ih =>
      intro acc q
      rw [List.foldl_cons]
      cases hres : resolveOne beh b tm st pr with
      | none =>
          rw [stepProduct_none hres]
          rcases ih acc q with ⟨h1, h2⟩ | ⟨r, h⟩
          · refine .inl ⟨h1, ?_⟩
            intro x hx hxq
            rcases List.mem_cons.mp hx with hx | hx
            · subst hx; exact hres
            · exact h2 x hx hxq
          · exact .inr ⟨r, h⟩
      | some pa =>
          obtain ⟨fE, nI⟩ := pa
          rw [stepProduct_some hres]
          set acc' :=
            ({ acc.1 with applied := updateAppliedIn acc.1.applied pr.1 fE },
             acc.2 ++ nI) with hacc'
          rcases ih acc' q with ⟨h1, h2⟩ | ⟨r, h⟩
          · by_cases hq : q = pr.1
            · refine .inr ⟨pr.2.any beh, ?_⟩
              rw [h1, hacc']
              have := appliedFor_set acc.1 pr.1 q fE
              rw [this, if_pos hq, (resolveOne_some_inv hres).2.1, hq]
            · refine .inl ⟨?_, ?_⟩
              · rw [h1, hacc', appliedFor_set acc.1 pr.1 q fE, if_neg hq]
              · intro x hx hxq
                rcases List.mem_cons.mp hx with hx | hx
                · subst hx
                  exact absurd hxq.symm hq
                · exact h2 x hx hxq
          · exact .inr ⟨r, h⟩

/-- The last-write-wins insert keeps config ids pairwise distinct. -/
lemma insertEntry_idsNodup {acc : List ConfigEntry} {e : ConfigEntry}
    (h : IdsNodup acc) : IdsNodup (insertEntry acc e) := by
  unfold IdsNodup at *
  unfold insertEntry
  rw [List.pairwise_append]
  refine ⟨h.sublist (List.filter_sublist acc), List.pairwise_singleton _ _, ?_⟩
  intro a ha b hb
  rw [List.mem_singleton] at hb
  subst hb
  have hp := List.of_mem_filter ha
  simpa [bne_iff_ne] using hp

/-- Resolved entry lists carry pairwise-distinct config ids. -/
lemma newEntries_idsNodup (b : Bundle) (tm : TargetsMeta) (p : String) :
    IdsNodup (newEntries b tm p) := by
  unfold newEntries
  refine List.foldlRecOn tm.targets _ [] List.Pairwise.nil ?_
  intro acc hacc pr _
  cases hp : parsePath pr.1 with
  | none => simpa [hp] using hacc
  | some pc =>
      obtain ⟨prod, cid⟩ := pc
      by_cases hc : prod = p ∧ pr.1 ∈ b.client_configs
      · cases hl : b.files.lookup pr.1 with
        | none => simpa [hp, hc, hl] using hacc
        | some raw =>
            simp only [hp, hc, and_self, if_true, hl]
            exact insertEntry_idsNodup hacc
      · simpa [hp, hc] using hacc

/-- Every resolved entry originates from a target-map path that names the
product and the entry's config id and is listed in `client_configs`. -/
lemma newEntries_mem_source {b : Bundle} {tm : TargetsMeta} {p : String}
    {x : ConfigEntry} (hx : x ∈ newEntries b tm p) :
    ∃ pr ∈ tm.targets, parsePath pr.1 = some (p, x.configId) ∧
      pr.1 ∈ b.client_configs := by
  unfold newEntries at hx
  revert hx
  refine List.foldlRecOn
    (motive := fun acc => x ∈ acc →
      ∃ pr ∈ tm.targets, parsePath pr.1 = some (p, x.configId) ∧
        pr.1 ∈ b.client_configs)
    tm.targets _ [] (fun hx => absurd hx (List.not_mem_nil x)) ?_
  intro acc hacc pr hpr
  cases hp : parsePath pr.1 with
  | none => simpa [hp] using hacc
  | some pc =>
      obtain ⟨prod, cid⟩ := pc
      by_cases hc : prod = p ∧ pr.1 ∈ b.client_configs
      · cases hl : b.files.lookup pr.1 with
        | none => simpa [hp, hc, hl] using hacc
        | some raw =>
            simp only [hp, hc, and_self, if_true, hl]
            intro hx
            unfold insertEntry at hx
            rcases List.mem_append.mp hx with hx | hx
            · exact hacc (List.mem_of_mem_filter hx)
            · rw [List.mem_singleton] at hx
              subst hx
              exact ⟨pr, hpr, by rw [hp, hc.1], hc.2⟩
      · simpa [hp, hc] using hacc

/-- Among entries with pairwise-distinct config ids, searching by an element's
config id finds exactly that element. -/
lemma find?_self_of_idsNodup {l : List ConfigEntry} {e : ConfigEntry}
    (h : IdsNodup l) (he : e ∈ l) :
    l.find? (fun o => o.configId == e.configId) = some e := by
  induction l with
  | nil => cases he
  | cons x xs ih =>
      have hpc := List.pairwise_cons.mp h
      rcases List.mem_cons.mp he with rfl | hmem
      · simp [List.find?_cons]
      · have hx : ¬ x.configId = e.configId := hpc.1 e hmem
        rw [List.find?_cons]
        simp only [string_beq_false hx]
        exact ih hpc.2 hmem

/-- Re-diffing a product against its own just-committed (relabeled) entries
yields the empty diff: everything is UNCHANGED, nothing is removed. -/
lemma diff_self_stateify (r : Bool) (l : List ConfigEntry) (h : IdsNodup l) :
    (diffProduct (stateify r l) l).isEmpty = true := by
  have hmap : ∀ e : ConfigEntry,
      (stateify r l).find? (fun o => o.configId == e.configId)
        = Option.map
            (fun o => { o with applyState :=
              if r then ApplyState.ERROR else .ACKNOWLEDGED })
            (l.find? (fun o => o.configId == e.configId)) := by
    intro e
    unfold stateify
    rw [List.find?_map]
    rfl
  unfold diffProduct ProductDiff.isEmpty
  simp only [Bool.and_eq_true, List.isEmpty_iff]
  refine ⟨⟨?_, ?_⟩, ?_⟩
  · rw [List.filter_eq_nil_iff]
    intro e he
    rw [hmap e, find?_self_of_idsNodup h he]
    simp
  · rw [List.filter_eq_nil_iff]
    intro e he
    rw [hmap e, find?_self_of_idsNodup h he]
    simp
  · rw [List.filter_eq_nil_iff]
    intro o ho
    unfold stateify at ho
    rcases List.mem_map.mp ho with ⟨e, he, rfl⟩
    rw [show (fun x : ConfigEntry => x.configId ==
        ({ e with applyState :=
          if r then ApplyState.ERROR else .ACKNOWLEDGED } :
            ConfigEntry).configId)
      = (fun x : ConfigEntry => x.configId == e.configId) from rfl]
    rw [find?_self_of_idsNodup h he]
    simp

/-- Two client states with equal fields are equal. -/
lemma clientState_ext {s t : ClientState} (h1 : s.rootVersion = t.rootVersion)
    (h2 : s.targetsVersion = t.targetsVersion)
    (h3 : s.backendState = t.backendState) (h4 : s.applied = t.applied) :
    s = t := by
  cases s
  cases t
  simp_all

/-- Forward construction of a root-only pass (no targets blob). -/
lemma processResponseE_build_none (reg : Registry) (beh : Callback → Bool)
    (now : Nat) (st : ClientState) (w : WireResponse) (b : Bundle) (nr : Nat)
    (hd : decode w = .ok b)
    (hr : applyRootRotation b.roots st.rootVersion = .ok nr)
    (htm : b.targets = none) :
    processResponseE reg beh now st w =
      .ok ({ st with rootVersion := nr }, []) := by
  simp [processResponseE, hd, hr, htm, Bind.bind, Except.bind]

/-- Forward construction of a full pass with a verified targets blob. -/
lemma processResponseE_build_some (reg : Registry) (beh : Callback → Bool)
    (now : Nat) (st : ClientState) (w : WireResponse) (b : Bundle)
    (tm : TargetsMeta) (nr : Nat)
    (hd : decode w = .ok b)
    (hr : applyRootRotation b.roots st.rootVersion = .ok nr)
    (htm : b.targets = some tm)
    (hv : verify_targets tm st.targetsVersion now = .ok tm) :
    processResponseE reg beh now st w =
      .ok (stepProducts beh b tm reg.products st
        { st with rootVersion := nr, targetsVersion := tm.version,
                  backendState := tm.opaqueBackendState }) := by
  simp [processResponseE, hd, hr, htm, hv, Bind.bind, Except.bind]

/-- After one successful pass over a response, re-diffing that same response
against the committed state yields the empty diff for every registered
product. -/
lemma second_pass_diff_empty {reg : Registry} {beh : Callback → Bool}
    {now : Nat} {st : ClientState} {w : WireResponse} {b : Bundle}
    {tm : TargetsMeta} {st1 : ClientState} {invs : List Invocation}
    (hd : decode w = .ok b) (htm : b.targets = some tm)
    (hp : processResponseE reg beh now st w = .ok (st1, invs)) :
    ∀ pr ∈ reg.products,
      (diffProduct (st1.appliedFor pr.1) (newEntries b tm pr.1)).isEmpty
        = true := by
  obtain ⟨b', nr, hd', hr, hcase⟩ := processResponseE_ok_inv hp
  rw [hd] at hd'
  injection hd' with hb
  subst hb
  rcases hcase with ⟨htm', _⟩ | ⟨tm', htm', hv, hre⟩
  · rw [htm] at htm'
    cases htm'
  · rw [htm] at htm'
    injection htm' with htmeq
    subst htmeq
    intro pr hpr
    have hst1 : st1 = (stepProducts beh b tm reg.products st
        { st with rootVersion := nr, targetsVersion := tm.version,
                  backendState := tm.opaqueBackendState }).1 := by
      rw [← hre]
    rcases foldl_stepProduct_appliedFor beh b tm st reg.products
        ({ st with rootVersion := nr, targetsVersion := tm.version,
                   backendState := tm.opaqueBackendState }, []) pr.1 with
      ⟨h1, h2⟩ | ⟨r, h⟩
    · have hempty := (resolveOne_none_iff beh b tm st pr).mp (h2 pr hpr rfl)
      rw [hst1]
      unfold stepProducts
      rw [h1]
      exact hempty
    · rw [hst1]
      unfold stepProducts
      rw [h]
      exact diff_self_stateify r _ (newEntries_idsNodup b tm pr.1)

/-- Processing the same response twice: the second pass returns the committed
state unchanged and performs zero invocations. -/
lemma processResponse_twice (reg : Registry) (beh : Callback → Bool)
    (now : Nat) (st : ClientState) (w : WireResponse) :
    processResponse reg beh now (processResponse reg beh now st w).1 w
      = ((processResponse reg beh now st w).1, []) := by
  cases hp : processResponseE reg beh now st w with
  | error e =>
      have h1 : processResponse reg beh now st w = (st, []) := by
        simp [processResponse, hp]
      rw [h1]
      simp [processResponse, hp]
  | ok r =>
      obtain ⟨st1, invs⟩ := r
      have h1 : processResponse reg beh now st w = (st1, invs) := by
        simp [processResponse, hp]
      rw [h1]
      obtain ⟨b, nr, hd, hr, hcase⟩ := processResponseE_ok_inv hp
      have hrle := applyRootRotation_le hr
      have hrot1 : applyRootRotation b.roots nr = .ok nr :=
        applyRootRotation_all_le hrle.2
      rcases hcase with ⟨htm, hre⟩ | ⟨tm, htm, hv, hre⟩
      · rw [Prod.mk.injEq] at hre
        obtain ⟨hst1, hinvs⟩ := hre
        subst hst1
        have h2 := processResponseE_build_none reg beh now
          { st with rootVersion := nr } w b nr hd hrot1 htm
        simp [processResponse, h2]
      · rw [Prod.mk.injEq] at hre
        obtain ⟨hst1, hinvs⟩ := hre
        have hf := stepProducts_fields beh b tm reg.products st
          { st with rootVersion := nr, targetsVersion := tm.version,
                    backendState := tm.opaqueBackendState }
        rw [← hst1] at hf
        have hexp := (verify_targets_ok_inv hv).2.2
        have hver2 : verify_targets tm st1.targetsVersion now = .ok tm := by
          unfold verify_targets
          rw [hf.2.1]
          rw [if_neg (by simp), if_neg (by simp; omega)]
        have hrot2 : applyRootRotation b.roots st1.rootVersion
            = .ok st1.rootVersion := by
          rw [hf.1]
          exact hrot1
        have h2 := processResponseE_build_some reg beh now st1 w b tm
          st1.rootVersion hd hrot2 htm hver2
        have hst0 :
            ({ st1 with rootVersion := st1.rootVersion,
                        targetsVersion := tm.version,
                        backendState := tm.opaqueBackendState } :
              ClientState) = st1 :=
          clientState_ext rfl hf.2.1.symm hf.2.2.symm rfl
        rw [hst0] at h2
        have hall : ∀ pr ∈ reg.products, resolveOne beh b tm st1 pr = none :=
          fun pr hpr => (resolveOne_none_iff beh b tm st1 pr).mpr
            (second_pass_diff_empty hd htm hp pr hpr)
        have hstep2 : stepProducts beh b tm reg.products st1 st1
            = (st1, []) := by
          unfold stepProducts
          exact foldl_stepProduct_id reg.products (st1, []) hall
        rw [hstep2] at h2
        simp [processResponse, h2]

/-- Whether a pass fails, and with which error, does not depend on callback
behavior: errors happen before any callback runs. -/
lemma processResponseE_error_beh (beh' : Callback → Bool) {reg : Registry}
    {beh : Callback → Bool} {now : Nat} {st : ClientState} {w : WireResponse}
    {e : RCError} (h : processResponseE reg beh now st w = .error e) :
    processResponseE reg beh' now st w = .error e := by
  cases hd : decode w with
  | error e1 =>
      simp [processResponseE, hd, Bind.bind, Except.bind] at h ⊢
      exact h
  | ok b =>
      cases hr : applyRootRotation b.roots st.rootVersion with
      | error e1 =>
          simp [processResponseE, hd, hr, Bind.bind, Except.bind] at h ⊢
          exact h
      | ok nr =>
          cases htm : b.targets with
          | none =>
              simp [processResponseE, hd, hr, htm, Bind.bind,
                Except.bind] at h
          | some tm =>
              cases hv : verify_targets tm st.targetsVersion now with
              | error e1 =>
                  simp [processResponseE, hd, hr, htm, hv, Bind.bind,
                    Except.bind] at h ⊢
                  exact h
              | ok tm2 =>
                  simp [processResponseE, hd, hr, htm, hv, Bind.bind,
                    Except.bind] at h

/-- Relabeling apply states preserves the identity-and-content view. -/
lemma stateify_essence (r : Bool) (l : List ConfigEntry) :
    (stateify r l).map entryEssence = l.map entryEssence := by
  unfold stateify
  rw [List.map_map]
  rfl

/-- For a single product, callback behavior decides neither whether the
product changed nor which callbacks are invoked with which config identities:
only the apply-state bookkeeping differs. -/
lemma resolveOne_essence_cases (beh beh' : Callback → Bool) (b : Bundle)
    (tm : TargetsMeta) (st : ClientState) (pr : String × List Callback) :
    (resolveOne beh b tm st pr = none ∧ resolveOne beh' b tm st pr = none) ∨
    (∃ fE nI fE' nI', resolveOne beh b tm st pr = some (fE, nI) ∧
      resolveOne beh' b tm st pr = some (fE', nI') ∧
      nI.map invEssence = nI'.map invEssence) := by
  by_cases hd : (diffProduct (st.appliedFor pr.1)
      (newEntries b tm pr.1)).isEmpty = true
  · exact .inl ⟨(resolveOne_none_iff beh b tm st pr).mpr hd,
      (resolveOne_none_iff beh' b tm st pr).mpr hd⟩
  · have hd' := bool_eq_false hd
    refine .inr ⟨_, _, _, _, resolveOne_some_of_ne hd',
      resolveOne_some_of_ne hd', ?_⟩
    simp only [List.map_map]
    apply List.map_congr_left
    intro cb _
    simp only [Function.comp_apply, invEssence, stateify_essence]

/-- The invocation essences the walk produces are independent of callback
behavior. -/
lemma foldl_invs_essence (beh beh' : Callback → Bool) (b : Bundle)
    (tm : TargetsMeta) (st : ClientState) :
    ∀ (prods : List (String × List Callback))
      (acc acc' : ClientState × List Invocation),
      acc.2.map invEssence = acc'.2.map invEssence →
      (prods.foldl (stepProduct beh b tm st) acc).2.map invEssence
        = (prods.foldl (stepProduct beh' b tm st) acc').2.map invEssence := by
  intro prods
  induction prods with
  | nil => intro acc acc' h; exact h
  | cons pr rest ih =>
      intro acc acc' h
      rw [List.foldl_cons, List.foldl_cons]
      rcases resolveOne_essence_cases beh beh' b tm st pr with
        ⟨h1, h2⟩ | ⟨fE, nI, fE', nI', h1, h2, h3⟩
      · rw [stepProduct_none h1, stepProduct_none h2]
        exact ih acc acc' h
      · rw [stepProduct_some h1, stepProduct_some h2]
        apply ih
        simp only [List.map_append]
        rw [h, h3]

/-- Products whose key never occurs in the walked list keep their applied
entries. -/
lemma foldl_stepProduct_key_absent {beh : Callback → Bool} {b : Bundle}
    {tm : TargetsMeta} {st : ClientState} :
    ∀ (prods : List (String × List Callback)) (q : String),
      (∀ x ∈ prods, ¬ x.1 = q) →
      ∀ acc : ClientState × List Invocation,
        ((prods.foldl (stepProduct beh b tm st) acc).1).appliedFor q
          = acc.1.appliedFor q := by
  intro prods
  induction prods with
  | nil => intro q _ acc; rfl
  | cons hd rest ih =>
      intro q hq acc
      rw [List.foldl_cons]
      rw [ih q (fun x hx => hq x (List.mem_cons_of_mem hd hx))]
      cases hres : resolveOne beh b tm st hd with
      | none => rw [stepProduct_none hres]
      | some pa =>
          obtain ⟨fE, nI⟩ := pa
          rw [stepProduct_some hres]
          have := appliedFor_set acc.1 hd.1 q fE
          rw [this, if_neg
            (fun hc => hq hd (List.mem_cons_self hd rest) hc.symm)]

/-- Under duplicate-free product keys, a changed product's applied entries
after the walk are exactly its relabeled new entries. -/
lemma foldl_stepProduct_appliedFor_exact {beh : Callback → Bool} {b : Bundle}
    {tm : TargetsMeta} {st : ClientState} :
    ∀ (prods : List (String × List Callback)),
      (prods.map Prod.fst).Nodup →
      ∀ pr ∈ prods, ∀ {fE : List ConfigEntry} {nI : List Invocation},
        resolveOne beh b tm st pr = some (fE, nI) →
        ∀ acc : ClientState × List Invocation,
          ((prods.foldl (stepProduct beh b tm st) acc).1).appliedFor pr.1
            = fE := by
  intro prods
  induction prods with
  | nil => intro _ pr hpr; cases hpr
  | cons hd rest ih =>
      intro hnd pr hpr fE nI hres acc
      rw [List.map_cons, List.nodup_cons] at hnd
      rcases List.mem_cons.mp hpr with rfl | hmem
      · rw [List.foldl_cons, stepProduct_some hres]
        have habsent : ∀ x ∈ rest, ¬ x.1 = pr.1 := by
          intro x hx hc
          exact hnd.1 (hc ▸ List.mem_map_of_mem Prod.fst hx)
        rw [foldl_stepProduct_key_absent rest pr.1 habsent]
        have := appliedFor_set acc.1 pr.1 pr.1 fE
        rw [this, if_pos rfl]
      · rw [List.foldl_cons]
        exact ih hnd.2 pr hmem hres (stepProduct beh b tm st acc hd)

/-- A successful association-list lookup exhibits a member. -/
lemma lookup_mem {l : List (String × List ConfigEntry)} {k : String}
    {v : List ConfigEntry} (h : l.lookup k = some v) : (k, v) ∈ l := by
  induction l with
  | nil => cases h
  | cons hd tl ih =>
      obtain ⟨q, es⟩ := hd
      rw [List.lookup_cons] at h
      by_cases hk : k = q
      · subst hk
        simp only [beq_self_eq_true] at h
        injection h with h
        subst h
        exact List.mem_cons_self _ _
      · rw [string_beq_false hk] at h
        exact List.mem_cons_of_mem _ (ih h)

/-- An applied entry comes from a pair stored in the applied map. -/
lemma appliedFor_mem {st : ClientState} {q : String} {e : ConfigEntry}
    (h : e ∈ st.appliedFor q) :
    ∃ es, (q, es) ∈ st.applied ∧ e ∈ es := by
  unfold ClientState.appliedFor at h
  cases hl : st.applied.lookup q with
  | none => rw [hl] at h; cases h
  | some es =>
      rw [hl] at h
      exact ⟨es, lookup_mem hl, h⟩

/-- Every stored applied entry is reported, with its apply state, in the next
poll request. -/
lemma buildRequest_report_mem {reg : Registry} {st : ClientState} {q : String}
    {es : List ConfigEntry} {e : ConfigEntry}
    (hq : (q, es) ∈ st.applied) (he : e ∈ es) :
    ({ product := e.product, configId := e.configId, hash := e.hash,
       state := e.applyState } : ConfigReport)
      ∈ (buildRequest reg st).configStates := by
  unfold buildRequest
  exact List.mem_flatMap.mpr ⟨(q, es), hq, List.mem_map.mpr ⟨e, he, rfl⟩⟩

/-- The trust-state fields a pass commits are independent of callback
behavior. -/
lemma processResponse_fields_beh (reg : Registry)
    (beh beh' : Callback → Bool) (now : Nat) (st : ClientState)
    (w : WireResponse) :
    (processResponse reg beh now st w).1.rootVersion
      = (processResponse reg beh' now st w).1.rootVersion ∧
    (processResponse reg beh now st w).1.targetsVersion
      = (processResponse reg beh' now st w).1.targetsVersion := by
  cases hp : processResponseE reg beh now st w with
  | error e =>
      have hp' := processResponseE_error_beh beh' hp
      simp [processResponse, hp, hp']
  | ok r =>
      cases hp' : processResponseE reg beh' now st w with
      | error e =>
          rw [processResponseE_error_beh beh hp'] at hp
          cases hp
      | ok r' =>
          obtain ⟨b, nr, hd, hr, hcase⟩ := processResponseE_ok_inv hp
          obtain ⟨b2, nr2, hd2, hr2, hcase2⟩ := processResponseE_ok_inv hp'
          rw [hd] at hd2
          injection hd2 with hb
          subst hb
          rw [hr] at hr2
          injection hr2 with hnr
          subst hnr
          rcases hcase with ⟨htm, hre⟩ | ⟨tm, htm, hv, hre⟩ <;>
            rcases hcase2 with ⟨htm2, hre2⟩ | ⟨tm2, htm2, hv2, hre2⟩
          · simp [processResponse, hp, hp', hre, hre2]
          · rw [htm] at htm2; cases htm2
          · rw [htm] at htm2; cases htm2
          · rw [htm] at htm2
            injection htm2 with htmeq
            subst htmeq
            have hf1 := stepProducts_fields beh b tm reg.products st
              { st with rootVersion := nr, targetsVersion := tm.version,
                        backendState := tm.opaqueBackendState }
            have hf2 := stepProducts_fields beh' b tm reg.products st
              { st with rootVersion := nr, targetsVersion := tm.version,
                        backendState := tm.opaqueBackendState }
            simp only [processResponse, hp, hp', hre, hre2]
            exact ⟨hf1.1.trans hf2.1.symm, hf1.2.1.trans hf2.2.1.symm⟩

/-- The invocations a pass performs — which callbacks, which products, which
config identities and hashes — are independent of callback behavior. -/
lemma processResponse_invs_essence (reg : Registry)
    (beh beh' : Callback → Bool) (now : Nat) (st : ClientState)
    (w : WireResponse) :
    (processResponse reg beh now st w).2.map invEssence
      = (processResponse reg beh' now st w).2.map invEssence := by
  cases hp : processResponseE reg beh now st w with
  | error e =>
      simp [processResponse, hp, processResponseE_error_beh beh' hp]
  | ok r =>
      cases hp' : processResponseE reg beh' now st w with
      | error e =>
          rw [processResponseE_error_beh beh hp'] at hp
          cases hp
      | ok r' =>
          obtain ⟨b, nr, hd, hr, hcase⟩ := processResponseE_ok_inv hp
          obtain ⟨b2, nr2, hd2, hr2, hcase2⟩ := processResponseE_ok_inv hp'
          rw [hd] at hd2
          injection hd2 with hb
          subst hb
          rw [hr] at hr2
          injection hr2 with hnr
          subst hnr
          rcases hcase with ⟨htm, hre⟩ | ⟨tm, htm, hv, hre⟩ <;>
            rcases hcase2 with ⟨htm2, hre2⟩ | ⟨tm2, htm2, hv2, hre2⟩
          · simp [processResponse, hp, hp', hre, hre2]
          · rw [htm] at htm2; cases htm2
          · rw [htm] at htm2; cases htm2
          · rw [htm] at htm2
            injection htm2 with htmeq
            subst htmeq
            simp only [processResponse, hp, hp', hre, hre2]
            unfold stepProducts
            exact foldl_invs_essence beh beh' b tm st reg.products _ _ rfl

/-- C5: callback failure isolation — callback behavior affects neither the
trust state a pass commits (root/targets versions) nor which callbacks are
invoked for which products with which config identities; a product one of
whose callbacks raised has every committed entry's apply state set to ERROR,
and those entries are reported as ERROR on the next poll request; and every
callback of every changed product is still invoked. -/
theorem c5_callback_failure_isolation (reg : Registry)
    (beh beh' : Callback → Bool) (now : Nat) (st : ClientState)
    (w : WireResponse) :
    ((processResponse reg beh now st w).1.rootVersion
        = (processResponse reg beh' now st w).1.rootVersion ∧
      (processResponse reg beh now st w).1.targetsVersion
        = (processResponse reg beh' now st w).1.targetsVersion) ∧
    ((processResponse reg beh now st w).2.map invEssence
        = (processResponse reg beh' now st w).2.map invEssence) ∧
    (∀ (b : Bundle) (tm : TargetsMeta) (st1 : ClientState)
        (invs : List Invocation) (pr : String × List Callback),
      decode w = .ok b → b.targets = some tm →
      processResponseE reg beh now st w = .ok (st1, invs) →
      pr ∈ reg.products → (reg.products.map Prod.fst).Nodup →
      (diffProduct (st.appliedFor pr.1) (newEntries b tm pr.1)).isEmpty
        = false →
      pr.2.any beh = true →
      (∀ e ∈ st1.appliedFor pr.1, e.applyState = .ERROR) ∧
      (∀ e ∈ st1.appliedFor pr.1,
        ({ product := e.product, configId := e.configId, hash := e.hash,
           state := ApplyState.ERROR } : ConfigReport)
          ∈ (buildRequest reg st1).configStates)) ∧
    (∀ (b : Bundle) (tm : TargetsMeta) (st1 : ClientState)
        (invs : List Invocation) (pr : String × List Callback)
        (cb : Callback),
      decode w = .ok b → b.targets = some tm →
      processResponseE reg beh now st w = .ok (st1, invs) →
      pr ∈ reg.products → cb ∈ pr.2 →
      (diffProduct (st.appliedFor pr.1) (newEntries b tm pr.1)).isEmpty
        = false →
      ∃ i ∈ invs, i.callback = cb ∧ i.product = pr.1) := by
  refine ⟨processResponse_fields_beh reg beh beh' now st w,
    processResponse_invs_essence reg beh beh' now st w, ?_, ?_⟩
  · intro b tm st1 invs pr hd htm hp hpr hnd hdne hany
    obtain ⟨b', nr, hd', hr, hcase⟩ := processResponseE_ok_inv hp
    rw [hd] at hd'
    injection hd' with hb
    subst hb
    rcases hcase with ⟨htm', _⟩ | ⟨tm', htm', hv, hre⟩
    · rw [htm] at htm'; cases htm'
    · rw [htm] at htm'
      injection htm' with htmeq
      subst htmeq
      rw [Prod.mk.injEq] at hre
      obtain ⟨hst1, hinvs⟩ := hre
      have hres : resolveOne beh b tm st pr =
          some (stateify (pr.2.any beh) (newEntries b tm pr.1),
            pr.2.map (fun c =>
              { callback := c, product := pr.1,
                configs := stateify (pr.2.any beh)
                  (newEntries b tm pr.1) })) :=
        resolveOne_some_of_ne hdne
      have happ : st1.appliedFor pr.1
          = stateify (pr.2.any beh) (newEntries b tm pr.1) := by
        rw [hst1]
        unfold stepProducts
        exact foldl_stepProduct_appliedFor_exact reg.products hnd pr hpr
          hres _
      rw [hany] at happ
      have herr : ∀ e ∈ st1.appliedFor pr.1, e.applyState = .ERROR := by
        rw [happ]
        intro e he
        rcases List.mem_map.mp he with ⟨x, _, rfl⟩
        rfl
      refine ⟨herr, ?_⟩
      intro e he
      obtain ⟨es, hmem, hein⟩ := appliedFor_mem he
      rw [← herr e he]
      exact buildRequest_report_mem hmem hein
  · intro b tm st1 invs pr cb hd htm hp hpr hcb hdne
    obtain ⟨b', nr, hd', hr, hcase⟩ := processResponseE_ok_inv hp
    rw [hd] at hd'
    injection hd' with hb
    subst hb
    rcases hcase with ⟨htm', _⟩ | ⟨tm', htm', hv, hre⟩
    · rw [htm] at htm'; cases htm'
    · rw [htm] at htm'
      injection htm' with htmeq
      subst htmeq
      rw [Prod.mk.injEq] at hre
      obtain ⟨hst1, hinvs⟩ := hre
      have hres : resolveOne beh b tm st pr =
          some (stateify (pr.2.any beh) (newEntries b tm pr.1),
            pr.2.map (fun c =>
              { callback := c, product := pr.1,
                configs := stateify (pr.2.any beh)
                  (newEntries b tm pr.1) })) :=
        resolveOne_some_of_ne hdne
      refine ⟨{ callback := cb, product := pr.1,
                configs := stateify (pr.2.any beh)
                  (newEntries b tm pr.1) },
        ?_, rfl, rfl⟩
      rw [hinvs]
      unfold stepProducts
      exact foldl_stepProduct_invs_mem hres reg.products _ hpr _
        (List.mem_map.mpr ⟨cb, hcb, rfl⟩)

/-- C6: removal detection — when a previously applied entry's config paths for
a registered product are all absent from the new response's `client_configs`,
the resolver classifies the entry as REMOVED, and the product's callback is
invoked with a config list that no longer contains that config id. -/
theorem c6_removal_detection (reg : Registry) (beh : Callback → Bool)
    (now : Nat) (st : ClientState) (w : WireResponse) (b : Bundle)
    (tm : TargetsMeta) (st1 : ClientState) (invs : List Invocation)
    (pr : String × List Callback) (cb : Callback) (e : ConfigEntry)
    (hd : decode w = .ok b) (htm : b.targets = some tm)
    (hp : processResponseE reg beh now st w = .ok (st1, invs))
    (hpr : pr ∈ reg.products) (hcb : cb ∈ pr.2)
    (he : e ∈ st.appliedFor pr.1)
    (habs : ∀ t ∈ tm.targets, parsePath t.1 = some (pr.1, e.configId) →
      t.1 ∉ w.client_configs) :
    e ∈ (diffProduct (st.appliedFor pr.1) (newEntries b tm pr.1)).removed ∧
    ∃ i ∈ invs, i.callback = cb ∧ i.product = pr.1 ∧
      ∀ e' ∈ i.configs, e'.configId ≠ e.configId := by
  have hcc : b.client_configs = w.client_configs := (decode_ok_inv hd).2.2.2
  have hnew : ∀ x ∈ newEntries b tm pr.1, ¬ x.configId = e.configId := by
    intro x hx hxe
    obtain ⟨t, ht, hparse, hmem⟩ := newEntries_mem_source hx
    rw [hxe] at hparse
    exact habs t ht hparse (hcc ▸ hmem)
  have hfind : (newEntries b tm pr.1).find?
      (fun x => x.configId == e.configId) = none := by
    rw [List.find?_eq_none]
    intro x hx
    simp [string_beq_false (hnew x hx)]
  have hrem : e ∈ (diffProduct (st.appliedFor pr.1)
      (newEntries b tm pr.1)).removed := by
    unfold diffProduct
    rw [List.mem_filter]
    exact ⟨he, by rw [hfind]; rfl⟩
  refine ⟨hrem, ?_⟩
  have hremne : (diffProduct (st.appliedFor pr.1)
      (newEntries b tm pr.1)).removed.isEmpty = false := by
    cases hcr : (diffProduct (st.appliedFor pr.1)
        (newEntries b tm pr.1)).removed with
    | nil => rw [hcr] at hrem; cases hrem
    | cons a l => rfl
  have hdne : (diffProduct (st.appliedFor pr.1)
      (newEntries b tm pr.1)).isEmpty = false := by
    unfold ProductDiff.isEmpty
    rw [hremne]
    simp
  obtain ⟨b', nr, hd', hr, hcase⟩ := processResponseE_ok_inv hp
  rw [hd] at hd'
  injection hd' with hb
  subst hb
  rcases hcase with ⟨htm', _⟩ | ⟨tm', htm', hv, hre⟩
  · rw [htm] at htm'; cases htm'
  · rw [htm] at htm'
    injection htm' with htmeq
    subst htmeq
    rw [Prod.mk.injEq] at hre
    obtain ⟨hst1, hinvs⟩ := hre
    have hres : resolveOne beh b tm st pr =
        some (stateify (pr.2.any beh) (newEntries b tm pr.1),
          pr.2.map (fun c =>
            { callback := c, product := pr.1,
              configs := stateify (pr.2.any beh)
                (newEntries b tm pr.1) })) :=
      resolveOne_some_of_ne hdne
    refine ⟨{ callback := cb, product := pr.1,
              configs := stateify (pr.2.any beh)
                (newEntries b tm pr.1) },
      ?_, rfl, rfl, ?_⟩
    · rw [hinvs]
      unfold stepProducts
      exact foldl_stepProduct_invs_mem hres reg.products _ hpr _
        (List.mem_map.mpr ⟨cb, hcb, rfl⟩)
    · intro e' he'
      rcases List.mem_map.mp he' with ⟨x, hx, rfl⟩
      exact hnew x hx

/-- C3: at-most-once delivery per change — for a fixed response, processing it
once and then processing the identical response again makes the second pass
return the committed state unchanged with zero callback invocations; when the
first pass succeeded, the second pass's diff is empty for every registered
product (the UNCHANGED classification excludes hash-identical entries). -/
theorem c3_at_most_once_delivery (reg : Registry) (beh : Callback → Bool)
    (now : Nat) (st : ClientState) (w : WireResponse) :
    (processResponse reg beh now (processResponse reg beh now st w).1 w
        = ((processResponse reg beh now st w).1, [])) ∧
    (∀ (b : Bundle) (tm : TargetsMeta) (st1 : ClientState)
        (invs : List Invocation),
      decode w = .ok b → b.targets = some tm →
      processResponseE reg beh now st w = .ok (st1, invs) →
      ∀ pr ∈ reg.products,
        (diffProduct (st1.appliedFor pr.1) (newEntries b tm pr.1)).isEmpty
          = true) :=
  ⟨processResponse_twice reg beh now st w,
   fun _ _ _ _ hd htm hp => second_pass_diff_empty hd htm hp⟩

/-- Witness for C3 on the sample fixture: the repeated delivery is absorbed
and the re-diff of product "P" is empty. -/
theorem c3_witness :
    (processResponse sampleRegistry behNever 50
        (processResponse sampleRegistry behNever 50 initialClientState
          sampleWire).1 sampleWire
      = ((processResponse sampleRegistry behNever 50 initialClientState
          sampleWire).1, [])) ∧
    (diffProduct
        (((processResponse sampleRegistry behNever 50 initialClientState
          sampleWire).1).appliedFor "P")
        (newEntries sampleBundle sampleTargets "P")).isEmpty = true := by
  refine ⟨(c3_at_most_once_delivery sampleRegistry behNever 50
    initialClientState sampleWire).1, ?_⟩
  exact (c3_at_most_once_delivery sampleRegistry behNever 50
      initialClientState sampleWire).2 sampleBundle sampleTargets
    (processResponse sampleRegistry behNever 50 initialClientState
      sampleWire).1
    (processResponse sampleRegistry behNever 50 initialClientState
      sampleWire).2
    rfl rfl rfl ("P", [10]) (List.mem_singleton.mpr rfl)

/-- Witness for C1 on the sample fixture: a response at targets version 5
against a state trusting version 7 is rejected and the state is unchanged. -/
theorem c1_witness :
    verify_targets sampleTargets 7 50 = .error .trustErrorTargetsVersion ∧
    processResponse sampleRegistry behNever 50
        { initialClientState with targetsVersion := 7 } sampleWire
      = ({ initialClientState with targetsVersion := 7 }, []) :=
  (c1_monotonic_trust sampleRegistry behNever 50).2
    { initialClientState with targetsVersion := 7 } sampleWire sampleTargets
    rfl (by decide)

/-- Witness for C2: corrupting the sample file's bytes makes decode fail and
the whole response is discarded. -/
theorem c2_witness :
    decode { sampleWire with
        target_files := [{ path := samplePath, raw := [9, 9, 9] }] }
      = .error .decodeError ∧
    processResponse sampleRegistry behNever 50 initialClientState
        { sampleWire with
          target_files := [{ path := samplePath, raw := [9, 9, 9] }] }
      = (initialClientState, []) :=
  c2_hash_integrity sampleRegistry behNever 50 initialClientState
    { sampleWire with
      target_files := [{ path := samplePath, raw := [9, 9, 9] }] }
    sampleTargets { path := samplePath, raw := [9, 9, 9] }
    { hash := contentHash sampleBytes, length := 3 }
    rfl (List.mem_singleton.mpr rfl) rfl (.inl (by decide))

/-- Witness for C4: rotating 1 → 2 → 3 succeeds stepwise, and a delivered
root that skips a version (v3 over a trusted v1) rejects the response with
the state unchanged. -/
theorem c4_witness :
    (1 ≤ 3 ∧ (∀ r ∈ [(⟨2⟩ : RootMeta), ⟨3⟩], r.version ≤ 3) ∧
      3 = [(⟨2⟩ : RootMeta), ⟨3⟩].foldl
            (fun c r => if r.version = c + 1 then r.version else c) 1) ∧
    processResponse sampleRegistry behNever 0 initialClientState
        { roots := [⟨3⟩], targets := none, target_files := [],
          client_configs := [] }
      = (initialClientState, []) :=
  ⟨c4_stepwise_root_rotation.2.2.1 [⟨2⟩, ⟨3⟩] 1 3 rfl,
   c4_stepwise_root_rotation.2.2.2 sampleRegistry behNever 0
     initialClientState
     { roots := [⟨3⟩], targets := none, target_files := [],
       client_configs := [] }
     .trustErrorRoot rfl⟩

/-- C7: registration is idempotent — registering the same (product, callback)
pair twice leaves the registry exactly as registering it once; a callback not
yet registered occurs exactly once in the product's list afterwards; and any
poll response processed under the doubly-registered registry produces exactly
the state and invocations of the singly-registered one (so each change
triggers that callback once, not twice). -/
theorem c7_idempotent_registration (reg : Registry) (p : String)
    (cb : Callback) (beh : Callback → Bool) (now : Nat) (st : ClientState)
    (w : WireResponse) :
    ((reg.register p cb).register p cb = reg.register p cb) ∧
    (cb ∉ reg.callbacks p →
      ((reg.register p cb).callbacks p).count cb = 1) ∧
    (processResponse ((reg.register p cb).register p cb) beh now st w =
      processResponse (reg.register p cb) beh now st w) := by
  have hidem : (reg.register p cb).register p cb = reg.register p cb := by
    simp [Registry.register, registerIn_idem]
  refine ⟨hidem, ?_, by rw [hidem]⟩
  intro hcb
  have h := lookup_registerIn reg.products p cb
  simp only [Registry.callbacks, Registry.register] at *
  rw [h]
  simp only [Option.getD_some]
  rw [if_neg hcb, List.count_append]
  rw [List.count_eq_zero.mpr hcb]
  simp

/-- Witness for C7: registering callback 0 for "P" twice in an empty registry
stores it once, and processing under either registry is identical. -/
theorem c7_witness :
    (((Registry.mk []).register "P" 0).register "P" 0
      = (Registry.mk []).register "P" 0) ∧
    ((((Registry.mk []).register "P" 0).callbacks "P").count 0 = 1) ∧
    (processResponse (((Registry.mk []).register "P" 0).register "P" 0)
        behNever 50 initialClientState sampleWire
      = processResponse ((Registry.mk []).register "P" 0) behNever 50
          initialClientState sampleWire) := by
  have h := c7_idempotent_registration (Registry.mk []) "P" 0 behNever 50
    initialClientState sampleWire
  exact ⟨h.1, h.2.1 (by decide), h.2.2⟩

/-- Witness for C5 on the two-product fixture: "P"'s raising callback leaves
the committed trust state and the invocation structure as in the non-raising
run, marks "P"'s entries ERROR and reports them, and "Q" is still invoked. -/
theorem c5_witness :
    ((processResponse sampleRegistry2 behRaiseP 50 initialClientState
        sampleWire2).1.rootVersion
      = (processResponse sampleRegistry2 behNever 50 initialClientState
        sampleWire2).1.rootVersion) ∧
    ((processResponse sampleRegistry2 behRaiseP 50 initialClientState
        sampleWire2).2.map invEssence
      = (processResponse sampleRegistry2 behNever 50 initialClientState
        sampleWire2).2.map invEssence) ∧
    (∀ e ∈ ((processResponse sampleRegistry2 behRaiseP 50 initialClientState
        sampleWire2).1).appliedFor "P", e.applyState = .ERROR) ∧
    (∀ e ∈ ((processResponse sampleRegistry2 behRaiseP 50 initialClientState
        sampleWire2).1).appliedFor "P",
      ({ product := e.product, configId := e.configId, hash := e.hash,
         state := ApplyState.ERROR } : ConfigReport)
        ∈ (buildRequest sampleRegistry2
            (processResponse sampleRegistry2 behRaiseP 50 initialClientState
              sampleWire2).1).configStates) ∧
    (∃ i ∈ (processResponse sampleRegistry2 behRaiseP 50 initialClientState
        sampleWire2).2, i.callback = 20 ∧ i.product = "Q") := by
  have h := c5_callback_failure_isolation sampleRegistry2 behRaiseP behNever
    50 initialClientState sampleWire2
  have h3 := h.2.2.1 sampleBundle2 sampleTargets2
    (processResponse sampleRegistry2 behRaiseP 50 initialClientState
      sampleWire2).1
    (processResponse sampleRegistry2 behRaiseP 50 initialClientState
      sampleWire2).2
    ("P", [10]) rfl rfl rfl (by decide) (by decide) (by decide)
    (by decide)
  have h4 := h.2.2.2 sampleBundle2 sampleTargets2
    (processResponse sampleRegistry2 behRaiseP 50 initialClientState
      sampleWire2).1
    (processResponse sampleRegistry2 behRaiseP 50 initialClientState
      sampleWire2).2
    ("Q", [20]) 20 rfl rfl rfl (by decide) (by decide) (by decide)
  exact ⟨h.1.1, h.2.1, h3.1, h3.2, h4⟩

/-- Witness for C6 on the removal fixture: the previously applied entry for
"P" is classified REMOVED and the callback receives a config list without
it. -/
theorem c6_witness :
    sampleEntry ∈ (diffProduct (sampleStateApplied.appliedFor "P")
      (newEntries sampleBundleRemoval sampleTargetsRemoval "P")).removed ∧
    ∃ i ∈ (processResponse sampleRegistry behNever 50 sampleStateApplied
        sampleWireRemoval).2,
      i.callback = 10 ∧ i.product = "P" ∧
        ∀ e' ∈ i.configs, e'.configId ≠ sampleEntry.configId :=
  c6_removal_detection sampleRegistry behNever 50 sampleStateApplied
    sampleWireRemoval sampleBundleRemoval sampleTargetsRemoval
    (processResponse sampleRegistry behNever 50 sampleStateApplied
      sampleWireRemoval).1
    (processResponse sampleRegistry behNever 50 sampleStateApplied
      sampleWireRemoval).2
    ("P", [10]) 10 sampleEntry rfl rfl rfl (by decide) (by decide)
    (by decide)
    (by intro t ht _; simp [sampleTargetsRemoval] at ht)

end RemoteConfig

namespace Tornado

/-- C10: through `wrap_executor` the span is finished exactly once on every
path: immediately when the wrapped function returns a plain value; inside the
exception handler, after the traceback is recorded, when it raises — with the
exception re-raised unchanged; and via the `_finish_span` done-callback, which
records the future's exception (if any) before finishing, when it returns a
Future. -/
theorem c10_wrap_executor_span_lifecycle (r : FnResult) (te : Option Nat) :
    ((wrap_executor r te).1.count .finishSpan = 1) ∧
    (∀ e, r = .raises e →
      wrap_executor r te =
        ([.setTagStr, .setTraceback, .finishSpan], .raised e)) ∧
    (r = .value → wrap_executor r te = ([.setTagStr, .finishSpan], .value)) ∧
    (∀ fut, r = .future fut →
      (wrap_executor r te).1 = .setTagStr :: finish_span true fut te ∧
      (wrap_executor r te).2 = .futureReturned ∧
      (finish_span true fut te).getLast? = some .finishSpan ∧
      (finish_span true fut te).count .finishSpan = 1 ∧
      (∀ e, fut.hasExcInfo = true → fut.excInfoVal = some e →
        SpanEvent.setExcInfo (some e) ∈ (finish_span true fut te).dropLast)) := by
  have hfs : ∀ (fut : FutureState),
      ∃ pre, finish_span true fut te = pre ++ [.finishSpan] ∧
        pre.count SpanEvent.finishSpan = 0 ∧
        (∀ e, fut.hasExcInfo = true → fut.excInfoVal = some e →
          pre = [.setExcInfo (some e)]) := by
    intro fut
    obtain ⟨hei, eiv, he, hexi, eie, eit, ev, ehtb⟩ := fut
    cases hei with
    | true =>
        cases eiv with
        | some e₁ =>
            refine ⟨[.setExcInfo (some e₁)], rfl, rfl, ?_⟩
            intro e _ h2
            simp only [Option.some.injEq] at h2
            rw [h2]
        | none =>
            refine ⟨[], rfl, rfl, ?_⟩
            intro e _ h2
            simp at h2
    | false =>
        have vac : ∀ pre : List SpanEvent,
            (∀ e : Nat,
              (FutureState.mk false eiv he hexi eie eit ev ehtb).hasExcInfo
                  = true →
              (FutureState.mk false eiv he hexi eie eit ev ehtb).excInfoVal
                  = some e →
              pre = [.setExcInfo (some e)]) := by
          intro pre e h1
          simp at h1
        cases he with
        | false => exact ⟨[], rfl, rfl, vac []⟩
        | true =>
            cases hexi with
            | true =>
                rcases eie with _ | e₂ <;> rcases eit with _ | t₁
                · exact ⟨[], rfl, rfl, vac []⟩
                · exact ⟨[], rfl, rfl, vac []⟩
                · exact ⟨[], rfl, rfl, vac []⟩
                · exact ⟨[.setExcInfo (some e₂)], rfl, rfl, vac _⟩
            | false =>
                rcases ev with _ | e₃
                · exact ⟨[], rfl, rfl, vac []⟩
                · cases ehtb with
                  | true => exact ⟨[.setExcInfo (some e₃)], rfl, rfl, vac _⟩
                  | false => exact ⟨[.setExcInfo te], rfl, rfl, vac _⟩
  constructor
  · cases r with
    | value => rfl
    | raises e => rfl
    | future fut =>
        obtain ⟨pre, hpre, hcnt, _⟩ := hfs fut
        simp [wrap_executor, hpre, List.count_cons, List.count_append, hcnt]
        decide
  refine ⟨by rintro e rfl; rfl, by rintro rfl; rfl, ?_⟩
  rintro fut rfl
  obtain ⟨pre, hpre, hcnt, hexc⟩ := hfs fut
  refine ⟨rfl, rfl, ?_, ?_, ?_⟩
  · simp [hpre]
  · simp [hpre, List.count_append, hcnt, List.count_cons]
    decide
  · intro e h1 h2
    simp [hpre, hexc e h1 h2]

/-- Witness for C10: a raising call re-raises after traceback and finish; a
returned future with an exception gets it recorded before the single
finish. -/
theorem c10_witness :
    (wrap_executor (.raises 7) none
      = ([.setTagStr, .setTraceback, .finishSpan], .raised 7)) ∧
    ((finish_span true sampleFuture none).count
        .finishSpan = 1) ∧
    SpanEvent.setExcInfo (some 4)
      ∈ (finish_span true sampleFuture none).dropLast := by
  refine ⟨(c10_wrap_executor_span_lifecycle (.raises 7) none).2.1
    7 rfl, ?_, ?_⟩
  · exact ((c10_wrap_executor_span_lifecycle
      (.future sampleFuture) none).2.2.2 sampleFuture
      rfl).2.2.2.1
  · exact ((c10_wrap_executor_span_lifecycle
      (.future sampleFuture) none).2.2.2 sampleFuture
      rfl).2.2.2.2 4 rfl rfl

end Tornado
end DDTrace
